import Mathlib

/-!
Verification of the ideastockexchange argument-ranking core.

This file gives a shallow embedding, in Lean 4, of the parts of the
repository that the checked claims are about:

* `src/backend/algorithms/duplication_scoring.py` — the three-layer
  duplication scorer (mechanical / semantic / community), the novelty
  premium, per-argument scoring and clustering;
* `src/pipeline/models/belief_node.py` — `BeliefNode` / `ArgumentTree`
  and the bottom-up `compute_all_scores` propagation;
* `src/pipeline/scoring/uniqueness.py` — the sibling redundancy penalty
  loop of `UniquenessChecker.check_and_penalize`;
* `src/pipeline/scoring/reason_rank.py` — `ReasonRankScorer.update_and_rescore`.

Modelling conventions, chosen once and used throughout:

* Python floats are modelled as exact rationals (`ℚ`); all the penalty,
  blending and propagation formulas of the source are ratios of small
  decimals, so this is the standard idealisation.
* `datetime` values are modelled as rational "hours since epoch"; Python's
  `(now - submitted_at).total_seconds() / 3600.0` becomes plain subtraction.
  The optional `now=None` (wall clock) parameter is modelled as an explicit
  `now` argument, matching the injectable-now design described in the spec.
* The optional sentence-transformer engine of `SemanticSimilarityScorer`
  is an injected capability; it is modelled as an optional black-box
  similarity function `Option (String → String → ℚ)`.  `none` models the
  environments in which the import fails, where the source deterministically
  falls back to character-trigram Jaccard.
* `math.pow(0.5, x)` in the novelty premium is transcendental, so it is
  modelled as an injected field `powHalf : ℚ → ℚ` of the calculator; every
  concrete input evaluated in this file has age 0 hours, where the only
  value used is `powHalf 0`, and `0.5 ** 0.0 = 1.0` exactly.
* `numpy.linalg.norm` is `sqrt` of a sum of squares; `ratSqrt` below is
  exact whenever numerator and denominator of its argument are perfect
  squares (true of every concrete embedding used here), and has the same
  zero set (`ratSqrt q = 0` iff `q = 0` for `q ≥ 0`), which is all the
  cosine guard of the source inspects.
* Python dicts are modelled as lookup functions built by left folds, so a
  later binding shadows an earlier one, exactly like dict assignment;
  Python sets used for membership are modelled as lists with membership.
* Python's stable `sorted` / `list.sort` are modelled by `List.mergeSort`,
  which is also stable.
-/

set_option maxRecDepth 40000

namespace ISE

/-! ## Layer 1: `MechanicalEquivalenceChecker` (duplication_scoring.py)

The module-level tables `_SYNONYM_GROUPS`, `_CANONICAL`, `_STOPWORDS`,
`_NEGATION_WORDS`, `_ANTONYM_PAIRS`, `_ANTONYMS`, transcribed verbatim
(the leading underscore of the Python names is dropped). -/

def SYNONYM_GROUPS : List (List String) := [
  ["decrease", "lower", "reduce"],
  ["hike", "increase", "raise"],
  ["ban", "forbid", "prohibit"],
  ["allow", "enable", "permit"],
  ["build", "construct"],
  ["buy", "purchase"],
  ["end", "stop", "terminate"],
  ["fix", "repair", "resolve"],
  ["beneficial", "good"],
  ["bad", "detrimental", "harmful"],
  ["clever", "intelligent", "smart"],
  ["foolish", "stupid", "unintelligent"],
  ["fast", "quick", "rapid"],
  ["slow", "sluggish"],
  ["rich", "wealthy"],
  ["impoverished", "poor"],
  ["accurate", "true"],
  ["false", "inaccurate", "incorrect"],
  ["tax", "taxation", "taxes"]]

/-- Python's `min` on a list of strings (lexicographic smallest member). -/
def listMinString (l : List String) : String :=
  l.foldl (fun a b => if b < a then b else a) (l.headD "")

/-- The `_CANONICAL` mapping: word to the smallest member of its synonym group. -/
def CANONICAL : List (String × String) :=
  SYNONYM_GROUPS.flatMap (fun g => g.map (fun w => (w, listMinString g)))

/-- `_CANONICAL.get(tok, tok)`. -/
def canonical (w : String) : String :=
  ((CANONICAL.find? (fun p => p.1 = w)).map Prod.snd).getD w

def STOPWORDS : List String := [
  "a", "an", "the", "is", "are", "was", "were", "be", "been", "being",
  "have", "has", "had", "do", "does", "did", "will", "would", "shall",
  "should", "may", "might", "must", "can", "could", "not", "no", "nor",
  "so", "yet", "both", "either", "neither", "for", "and", "but", "or",
  "as", "at", "by", "in", "of", "on", "to", "up", "it", "its",
  "this", "that", "these", "those", "i", "we", "you", "he", "she", "they",
  "them", "their", "our", "your", "my", "his", "her"]

def NEGATION_WORDS : List String := [
  "not", "no", "never", "neither", "nor", "without", "un", "in", "im", "dis", "non"]

def ANTONYM_PAIRS : List (String × String) := [
  ("intelligent", "unintelligent"), ("intelligent", "stupid"), ("smart", "dumb"),
  ("good", "bad"), ("good", "evil"), ("true", "false"), ("correct", "incorrect"),
  ("honest", "dishonest"), ("legal", "illegal"), ("moral", "immoral"),
  ("possible", "impossible"), ("responsible", "irresponsible"), ("relevant", "irrelevant"),
  ("effective", "ineffective"), ("efficient", "inefficient"), ("logical", "illogical"),
  ("rational", "irrational"), ("similar", "dissimilar"), ("agree", "disagree"),
  ("like", "dislike"), ("trust", "distrust"), ("approve", "disapprove")]

/-- The `_ANTONYMS` lookup: each pair contributes both directions. -/
def ANTONYMS : List (String × String) :=
  ANTONYM_PAIRS.flatMap (fun p => [(p.1, p.2), (p.2, p.1)])

/-- `_ANTONYMS.get(next_tok)`. -/
def antonymOf (w : String) : Option String :=
  (ANTONYMS.find? (fun p => p.1 = w)).map Prod.snd

namespace MechanicalEquivalenceChecker

/-- Characters kept by `re.sub(r"[^\w\s']", " ", text)` (ASCII model of the
regex: word characters, whitespace and the apostrophe, written via its code
point 39). -/
def keptChar (c : Char) : Bool :=
  c.isAlpha || c.isDigit || c = '_' || c.isWhitespace || c = Char.ofNat 39

/-- Steps 1 to 3 of `normalize`: lowercase, replace punctuation by spaces,
split on whitespace discarding empty pieces (Python `str.split()`). -/
def tokenize (text : String) : List String :=
  let lowered := (text.toList.map Char.toLower).map (fun c => if keptChar c then c else ' ')
  ((String.mk lowered).split Char.isWhitespace).filter (fun s => s ≠ "")

/-- The while-loop of `normalize`: negated-antonym collapsing, stopword
removal and synonym canonicalisation.  A negation word followed by a word
with a known antonym consumes both tokens and emits the canonical form of
the antonym; otherwise the token falls through to the stopword/synonym
treatment and the scan advances by one. -/
def cleanTokens : List String → List String
  | [] => []
  | [tok] => if tok ∈ STOPWORDS then [] else [canonical tok]
  | tok :: next :: rest =>
    if tok ∈ NEGATION_WORDS then
      match antonymOf next with
      | some ant => canonical ant :: cleanTokens rest
      | none => (if tok ∈ STOPWORDS then [] else [canonical tok]) ++ cleanTokens (next :: rest)
    else (if tok ∈ STOPWORDS then [] else [canonical tok]) ++ cleanTokens (next :: rest)

/-- `MechanicalEquivalenceChecker.normalize`: the sorted list of canonical
tokens of a text. -/
def normalize (text : String) : List String :=
  (cleanTokens (tokenize text)).mergeSort (fun a b => decide (a ≤ b))

/-- `MechanicalEquivalenceChecker.score`: token-set Jaccard similarity of
the normalised texts.  `set(...)` is modelled by `List.dedup`; both sets
empty gives 1.0, exactly one empty gives 0.0. -/
def score (text_a text_b : String) : ℚ :=
  let tokens_a := (normalize text_a).dedup
  let tokens_b := (normalize text_b).dedup
  if tokens_a.isEmpty ∧ tokens_b.isEmpty then 1
  else if tokens_a.isEmpty ∨ tokens_b.isEmpty then 0
  else
    ((tokens_a.filter (fun w => w ∈ tokens_b)).length : ℚ)
      / (((tokens_a ++ tokens_b).dedup).length : ℚ)

/-- `are_mechanically_equivalent` (threshold passed explicitly; the Python
default is 0.85). -/
def are_mechanically_equivalent (text_a text_b : String) (threshold : ℚ) : Bool :=
  decide (threshold ≤ score text_a text_b)

end MechanicalEquivalenceChecker

/-! ## Data structures of duplication_scoring.py -/

/-- `ArgumentNode` dataclass.  `submitted_at` is in hours; `embedding` is
the optional pre-computed vector. -/
structure ArgumentNode where
  id : String
  claim : String
  inference : String := ""
  conclusion : String := ""
  base_score : ℚ := 50
  submitted_at : ℚ := 0
  embedding : Option (List ℚ) := none
deriving Inhabited, DecidableEq

/-- `SimilarityPair` dataclass. -/
structure SimilarityPair where
  arg_a_id : String
  arg_b_id : String
  layer1_score : ℚ := 0
  layer2_score : Option ℚ := none
  layer3_score : Option ℚ := none
  combined_score : ℚ := 0
  is_mechanical_duplicate : Bool := false
deriving Inhabited, DecidableEq

/-- `ScoredArgument` dataclass. -/
structure ScoredArgument where
  arg : ArgumentNode
  uniqueness_score : ℚ := 1
  effective_contribution : ℚ := 0
  novelty_multiplier : ℚ := 1
  similarity_pairs : List SimilarityPair := []
deriving Inhabited, DecidableEq

/-- `ArgumentCluster` dataclass. -/
structure ArgumentCluster where
  cluster_id : String
  representative_id : String
  member_ids : List String
  cluster_score : ℚ := 0
deriving Inhabited, DecidableEq

/-! ## Layer 2: `SemanticSimilarityScorer` -/

/-- Sum of squares of a vector; `numpy.linalg.norm v` is its square root. -/
def normSq (v : List ℚ) : ℚ := (v.map (fun x => x * x)).sum

/-- Dot product of two vectors (`numpy.dot`, truncating like zip). -/
def dotProd (v w : List ℚ) : ℚ := ((v.zip w).map (fun p => p.1 * p.2)).sum

/-- Rational model of `math.sqrt`: exact when numerator and denominator are
perfect squares (true of every concrete vector used in this file), and with
the same zero set as the real square root on nonnegative inputs, which is
all the cosine guard of the source inspects. -/
def ratSqrt (q : ℚ) : ℚ := (Nat.sqrt q.num.natAbs : ℚ) / (Nat.sqrt q.den : ℚ)

/-- Python truthiness of `arg.embedding`: `None` and the empty list are
falsy. -/
def embTruthy : Option (List ℚ) → Bool
  | none => false
  | some v => !v.isEmpty

/-- `SemanticSimilarityScorer`.  The `_engine` member (a sentence
transformer loaded at construction, `None` when the import fails) is the
injected capability `engine`. -/
structure SemanticSimilarityScorer where
  engine : Option (String → String → ℚ)

namespace SemanticSimilarityScorer

/-- `_argument_text`: claim plus the nonempty optional components, joined
by single spaces. -/
def argument_text (arg : ArgumentNode) : String :=
  String.intercalate " "
    ([arg.claim]
      ++ (if arg.inference ≠ "" then [arg.inference] else [])
      ++ (if arg.conclusion ≠ "" then [arg.conclusion] else []))

/-- Character n-grams of the lowercased text, as a set (`List.dedup`). -/
def ngrams (n : Nat) (text : String) : List String :=
  let t := text.toList.map Char.toLower
  ((List.range (t.length + 1 - n)).map (fun i => String.mk ((t.drop i).take n))).dedup

/-- `_ngram_similarity`: character n-gram Jaccard similarity (n = 3 at the
call site). -/
def ngram_similarity (n : Nat) (text_a text_b : String) : ℚ :=
  let a_grams := ngrams n text_a
  let b_grams := ngrams n text_b
  if a_grams.isEmpty ∧ b_grams.isEmpty then 1
  else if a_grams.isEmpty ∨ b_grams.isEmpty then 0
  else
    ((a_grams.filter (fun g => g ∈ b_grams)).length : ℚ)
      / (((a_grams ++ b_grams).dedup).length : ℚ)

/-- Cosine similarity of stored embeddings, with the zero-norm guard of the
source (`if norm_a == 0 or norm_b == 0: return 0.0`). -/
def cosineStored (va vb : List ℚ) : ℚ :=
  let norm_a := ratSqrt (normSq va)
  let norm_b := ratSqrt (normSq vb)
  if norm_a = 0 ∨ norm_b = 0 then 0
  else dotProd va vb / (norm_a * norm_b)

/-- `SemanticSimilarityScorer.score`: stored embeddings if both truthy,
else the engine, else the trigram fallback. -/
def score (s : SemanticSimilarityScorer) (arg_a arg_b : ArgumentNode) : ℚ :=
  let text_a := argument_text arg_a
  let text_b := argument_text arg_b
  if embTruthy arg_a.embedding ∧ embTruthy arg_b.embedding then
    cosineStored (arg_a.embedding.getD []) (arg_b.embedding.getD [])
  else
    match s.engine with
    | some f => f text_a text_b
    | none => ngram_similarity 3 text_a text_b

/-- `contribution_factor`: `clamp(1 - similarity, 0, 1)`. -/
def contribution_factor (similarity : ℚ) : ℚ :=
  max 0 (min 1 (1 - similarity))

end SemanticSimilarityScorer

/-! ## Layer 3: `EquivalenceSubDebate` -/

/-- `EquivalenceSubDebate` dataclass. -/
structure EquivalenceSubDebate where
  id : String
  arg_a_id : String
  arg_b_id : String
  question : String := "Are these two arguments saying the same thing?"
  pro_score : ℚ := 0
  con_score : ℚ := 0
  resolved : Bool := false
  community_similarity_score : Option ℚ := none
deriving Inhabited, DecidableEq

/-- `EquivalenceSubDebate.resolve`: returns the community score and the
updated record (mutation modelled by returning the new state). -/
def EquivalenceSubDebate.resolve (d : EquivalenceSubDebate) : ℚ × EquivalenceSubDebate :=
  let total := d.pro_score + d.con_score
  let score := if total = 0 then 1/2 else d.pro_score / total
  (score, { d with community_similarity_score := some score, resolved := true })

/-! ## `NoveltyPremiumCalculator` -/

/-- `NoveltyPremiumCalculator`.  `powHalf` models the transcendental
`math.pow(0.5, ·)`; it is a parameter of the embedding, and every concrete
input in this file only evaluates it at 0, where `0.5 ** 0.0 = 1.0`. -/
structure NoveltyPremiumCalculator where
  peak_multiplier : ℚ := 5/4
  halflife_hours : ℚ := 24
  floor : ℚ := 1
  novelty_threshold : ℚ := 1/2
  powHalf : ℚ → ℚ

/-- `NoveltyPremiumCalculator.multiplier`.  Times are in hours, so
`(now - submitted_at).total_seconds() / 3600.0` is plain subtraction;
the age is clamped at 0 like in the source. -/
def NoveltyPremiumCalculator.multiplier (c : NoveltyPremiumCalculator)
    (submitted_at uniqueness_score now : ℚ) : ℚ :=
  if uniqueness_score < c.novelty_threshold then c.floor
  else
    let age_hours := max 0 (now - submitted_at)
    let decay := c.powHalf (age_hours / c.halflife_hours)
    c.floor + (c.peak_multiplier - c.floor) * decay

/-! ## `EvidenceSource` / `EvidenceVolumeTracker` (context only) -/

/-- `EvidenceSource` dataclass. -/
structure EvidenceSource where
  id : String
  argument_id : String
  title : String
  url : String := ""
  quality_tier : String := "T2"
  corroboration_weight : ℚ := 1/10
deriving Inhabited, DecidableEq

/-- `tier_weights.get(s.quality_tier, 0.5)`. -/
def tierWeight (tier : String) : ℚ :=
  if tier = "T1" then 1 else if tier = "T2" then 3/4
  else if tier = "T3" then 1/2 else if tier = "T4" then 1/4 else 1/2

/-- The tier-weighted corroboration mass `weighted_n` of
`EvidenceVolumeTracker.corroboration_boost` (the exponential saturation
itself is transcendental and not needed by any claim). -/
def weightedEvidenceMass (sources : List EvidenceSource) : ℚ :=
  (sources.map (fun s => tierWeight s.quality_tier * s.corroboration_weight)).sum

/-! ## `DuplicationScorer` -/

/-- `DuplicationScorer` configuration.  `engine` is the Layer-2 capability
handed to its `SemanticSimilarityScorer`; `novelty` is its
`NoveltyPremiumCalculator`. -/
structure DuplicationScorer where
  layer1_weight : ℚ := 2/5
  layer2_weight : ℚ := 3/5
  layer3_weight : ℚ := 0
  mechanical_threshold : ℚ := 17/20
  semantic_threshold : ℚ := 1/2
  engine : Option (String → String → ℚ) := none
  novelty : NoveltyPremiumCalculator

namespace DuplicationScorer

/-- `DuplicationScorer._blend`: the mechanical short-circuit, then the
weighted average renormalised over the layers actually present, clamped to
the unit interval. -/
def blend (s : DuplicationScorer) (l1 l2 : ℚ) (l3 : Option ℚ) : ℚ :=
  if s.mechanical_threshold ≤ l1 then 1
  else
    match l3 with
    | some v =>
      let total_w := s.layer1_weight + s.layer2_weight + s.layer3_weight
      let blended := (l1 * s.layer1_weight + l2 * s.layer2_weight + v * s.layer3_weight) / total_w
      max 0 (min 1 blended)
    | none =>
      let total_w := s.layer1_weight + s.layer2_weight
      let blended := (l1 * s.layer1_weight + l2 * s.layer2_weight) / total_w
      max 0 (min 1 blended)

/-- `DuplicationScorer.compare`: runs the three layers and blends them.
`if community_debate and community_debate.resolved` keeps the Layer-3 score
only for a present, resolved debate. -/
def compare (s : DuplicationScorer) (arg_a arg_b : ArgumentNode)
    (community_debate : Option EquivalenceSubDebate) : SimilarityPair :=
  let l1 := MechanicalEquivalenceChecker.score arg_a.claim arg_b.claim
  let is_mech_dup := decide (s.mechanical_threshold ≤ l1)
  let l2 := SemanticSimilarityScorer.score { engine := s.engine } arg_a arg_b
  let l3 : Option ℚ :=
    match community_debate with
    | some d => if d.resolved then d.community_similarity_score else none
    | none => none
  let combined := s.blend l1 l2 l3
  { arg_a_id := arg_a.id, arg_b_id := arg_b.id, layer1_score := l1,
    layer2_score := some l2, layer3_score := l3, combined_score := combined,
    is_mechanical_duplicate := is_mech_dup }

/-- `DuplicationScorer.uniqueness_from_pairs`: one minus the maximum
combined similarity; 1.0 for no pairs. -/
def uniqueness_from_pairs (pairs : List SimilarityPair) : ℚ :=
  if pairs.isEmpty then 1
  else
    let max_similarity := ((pairs.map (fun p => p.combined_score)).max?).getD 0
    max 0 (1 - max_similarity)

/-- The `sorted(arguments, key=lambda a: a.submitted_at)` of
`score_arguments` (Python sort is stable; so is `List.mergeSort`). -/
def sortedBySubmission (arguments : List ArgumentNode) : List ArgumentNode :=
  arguments.mergeSort (fun a b => decide (a.submitted_at ≤ b.submitted_at))

/-- The dict lookup `community_debates.get((a, b)) or community_debates.get((b, a))`
of `score_arguments` (debate objects are always truthy, so `or` is
`Option.orElse`).  Dicts are lists of bindings where a later binding
shadows an earlier one. -/
def pairDebate (community_debates : List ((String × String) × EquivalenceSubDebate))
    (a b : String) : Option EquivalenceSubDebate :=
  let get := fun k => community_debates.foldl
    (fun acc p => if p.1 = k then some p.2 else acc) (none : Option EquivalenceSubDebate)
  (get (a, b)).orElse (fun _ => get (b, a))

/-- The dict `{a.id: idx for idx, a in enumerate(arguments)}` used by
`score_arguments` to restore the caller's order (later bindings shadow
earlier ones, like dict assignment). -/
def orderOf (arguments : List ArgumentNode) : String → Nat :=
  arguments.enum.foldl (fun f p => fun x => if x = p.2.id then p.1 else f x) (fun _ => 0)

/-- `DuplicationScorer.score_arguments`: sort oldest first (stable), score
each argument against the strictly earlier ones, apply the novelty premium,
and re-sort the results into the caller's original order. -/
def score_arguments (s : DuplicationScorer) (arguments : List ArgumentNode)
    (community_debates : List ((String × String) × EquivalenceSubDebate))
    (now : ℚ) : List ScoredArgument :=
  let sorted_args := sortedBySubmission arguments
  let results := (List.range sorted_args.length).map (fun i =>
    let arg := sorted_args.getD i default
    let pairs := (sorted_args.take i).map (fun prior =>
      s.compare arg prior (pairDebate community_debates arg.id prior.id))
    let uniqueness := uniqueness_from_pairs pairs
    let novelty := s.novelty.multiplier arg.submitted_at uniqueness now
    let effective := arg.base_score * uniqueness * novelty
    { arg := arg, uniqueness_score := uniqueness, effective_contribution := effective,
      novelty_multiplier := novelty, similarity_pairs := pairs })
  results.mergeSort (fun x y => decide (orderOf arguments x.arg.id ≤ orderOf arguments y.arg.id))

/-- The dict `{s.arg.id: s for s in scored}` of `cluster_arguments` (later
bindings shadow earlier ones). -/
def scoredMapOf (scored : List ScoredArgument) : String → ScoredArgument :=
  scored.foldl (fun f sc => fun x => if x = sc.arg.id then sc else f x) (fun _ => default)

/-- The similarity dict of `cluster_arguments`, keyed by
`(arg_a_id, arg_b_id)`. -/
def allPairsOf (scored : List ScoredArgument) : String × String → Option ℚ :=
  scored.foldl
    (fun f sc => sc.similarity_pairs.foldl
      (fun g p => fun k => if k = (p.arg_a_id, p.arg_b_id) then some p.combined_score else g k) f)
    (fun _ => none)

/-- Python `x or y or 0.0` on two optional floats: `None` and `0.0` are
falsy. -/
def pyOrSim (v1 v2 : Option ℚ) : ℚ :=
  match v1 with
  | some x => if x ≠ 0 then x else
      match v2 with
      | some y => if y ≠ 0 then y else 0
      | none => 0
  | none =>
      match v2 with
      | some y => if y ≠ 0 then y else 0
      | none => 0

/-- The greedy single-link grouping loops of `cluster_arguments`: the state
is (clusters built so far, assigned ids). -/
def greedyClusters (scored : List ScoredArgument) (similarity_threshold : ℚ) :
    List (List String) :=
  let all_pairs := allPairsOf scored
  (scored.foldl (fun (st : List (List String) × List String) sc =>
    if sc.arg.id ∈ st.2 then st
    else
      let seed := sc.arg.id
      let inner := scored.foldl (fun (ca : List String × List String) other =>
        if other.arg.id ∈ ca.2 then ca
        else
          let sim := pyOrSim (all_pairs (seed, other.arg.id)) (all_pairs (other.arg.id, seed))
          if similarity_threshold ≤ sim then (ca.1 ++ [other.arg.id], other.arg.id :: ca.2)
          else ca)
        ([seed], seed :: st.2)
      (st.1 ++ [inner.1], inner.2)) ([], [])).1

/-- `DuplicationScorer.cluster_arguments`: greedy clusters, then one
`ArgumentCluster` per cluster with the highest-base-score representative
(first maximum, like Python `max`) and the summed effective contributions. -/
def cluster_arguments (scored : List ScoredArgument) (similarity_threshold : ℚ) :
    List ArgumentCluster :=
  let scored_map := scoredMapOf scored
  (greedyClusters scored similarity_threshold).enum.map (fun p =>
    let cluster_ids := p.2
    let rep_id := cluster_ids.foldl
      (fun best aid =>
        if (scored_map best).arg.base_score < (scored_map aid).arg.base_score then aid else best)
      (cluster_ids.headD "")
    let total_contribution :=
      (cluster_ids.map (fun aid => (scored_map aid).effective_contribution)).sum
    { cluster_id := "cluster-" ++ toString (p.1 + 1), representative_id := rep_id,
      member_ids := cluster_ids, cluster_score := total_contribution })

end DuplicationScorer

/-! ## pipeline/config.py constants -/

def DEFAULT_TRUTH_SCORE : ℚ := 1/2
def DEFAULT_LINKAGE_SCORE : ℚ := 1/2
def DEFAULT_IMPORTANCE_SCORE : ℚ := 1/2
def DEFAULT_UNIQUENESS_SCORE : ℚ := 1
def UNIQUENESS_PENALTY_THRESHOLD : ℚ := 3/4
def UNIQUENESS_PENALTY_FACTOR : ℚ := 3/10
def MIN_RANK_SCORE : ℚ := 1/1000
def DEBUNKED_THRESHOLD : ℚ := 1/20

/-! ## pipeline/models/belief_node.py -/

/-- `BeliefNode` dataclass. -/
structure BeliefNode where
  belief_id : String
  statement : String
  category : String := ""
  subcategory : String := ""
  parent_id : Option String := none
  side : String := "supporting"
  truth_score : ℚ := DEFAULT_TRUTH_SCORE
  linkage_score : ℚ := DEFAULT_LINKAGE_SCORE
  importance_score : ℚ := DEFAULT_IMPORTANCE_SCORE
  uniqueness_score : ℚ := DEFAULT_UNIQUENESS_SCORE
  source_url : String := ""
  evidence_type : String := "T3"
  reason_rank : ℚ := 0
  propagated_score : ℚ := 0
deriving Inhabited, DecidableEq

/-- `BeliefNode.compute_base_rank`: the product of the four fitness
metrics, floored at `MIN_RANK_SCORE`. -/
def BeliefNode.compute_base_rank (n : BeliefNode) : ℚ :=
  max (n.truth_score * n.linkage_score * n.importance_score * n.uniqueness_score)
    MIN_RANK_SCORE

/-- `ArgumentTree`.  The Python `nodes` dict is modelled by the insertion
order of its keys (`ids`) plus a total lookup function (`node`); the
`_children` index is the function `childrenIx`. -/
structure ArgumentTree where
  ids : List String
  node : String → BeliefNode
  childrenIx : String → List String

namespace ArgumentTree

/-- In-place mutation of the node stored under `id`, modelled functionally. -/
def updateNode (t : ArgumentTree) (id : String) (f : BeliefNode → BeliefNode) : ArgumentTree :=
  { t with node := fun s => if s = id then f (t.node s) else t.node s }

/-- `ArgumentTree.add_node`: store the node (an existing dict key keeps its
position) and append it to its parent's child list.  `if node.parent_id:`
is Python truthiness, so both `None` and the empty string mean "no
parent". -/
def add_node (t : ArgumentTree) (n : BeliefNode) : ArgumentTree :=
  { ids := if n.belief_id ∈ t.ids then t.ids else t.ids ++ [n.belief_id],
    node := fun s => if s = n.belief_id then n else t.node s,
    childrenIx :=
      match n.parent_id with
      | some p =>
        if p = "" then t.childrenIx
        else fun s => if s = p then t.childrenIx s ++ [n.belief_id] else t.childrenIx s
      | none => t.childrenIx }

/-- The child ids of `id` that are present in the nodes dict (the
`if cid in self.nodes` filter of `get_children`). -/
def kidsOf (t : ArgumentTree) (id : String) : List String :=
  (t.childrenIx id).filter (fun c => c ∈ t.ids)

/-- `ArgumentTree.get_children`. -/
def get_children (t : ArgumentTree) (belief_id : String) : List BeliefNode :=
  (kidsOf t belief_id).map t.node

/-- `ArgumentTree.get_supporting_children`. -/
def get_supporting_children (t : ArgumentTree) (belief_id : String) : List BeliefNode :=
  (t.get_children belief_id).filter (fun c => c.side = "supporting")

/-- `ArgumentTree.get_weakening_children`. -/
def get_weakening_children (t : ArgumentTree) (belief_id : String) : List BeliefNode :=
  (t.get_children belief_id).filter (fun c => c.side = "weakening")

/-- `ArgumentTree.get_root_nodes`. -/
def get_root_nodes (t : ArgumentTree) : List BeliefNode :=
  (t.ids.filter (fun id => (t.node id).parent_id = none)).map t.node

/-- First pass of `compute_all_scores`: set `reason_rank` to the base rank
for every node. -/
def setBaseRanks (t : ArgumentTree) : ArgumentTree :=
  t.ids.foldl
    (fun acc id => acc.updateNode id (fun n => { n with reason_rank := n.compute_base_rank }))
    t

/-- `_topo_visit`: post-order DFS, carried state is (visited, order).  The
Python recursion always terminates because every call either returns on a
visited id or first marks its id visited; a fuel of `|nodes| + 1` therefore
bounds the nesting depth, and `topoSort` below passes exactly that. -/
def topoVisit (t : ArgumentTree) : Nat → String → List String × List String →
    List String × List String
  | 0, _, vo => vo
  | fuel+1, belief_id, vo =>
    if belief_id ∈ vo.1 then vo
    else
      let vo1 := (kidsOf t belief_id).foldl
        (fun acc c => topoVisit t fuel c acc) (belief_id :: vo.1, vo.2)
      (vo1.1, vo1.2 ++ [belief_id])

/-- `_topo_sort`: visit every node (skipping the already-visited ones) and
return the post-order list. -/
def topoSort (t : ArgumentTree) : List String :=
  (t.ids.foldl
    (fun vo id => if id ∈ vo.1 then vo else topoVisit t (t.ids.length + 1) id vo)
    ([], [])).2

/-- One step of the second pass of `compute_all_scores`: a node with no
supporting and no weakening children copies its base rank into
`propagated_score`; otherwise the net weighted child impact enters the
ReasonRank formula, floored at `MIN_RANK_SCORE`, and is written to both
`propagated_score` and `reason_rank`. -/
def scoreStep (t : ArgumentTree) (belief_id : String) : ArgumentTree :=
  let supporting := t.get_supporting_children belief_id
  let weakening := t.get_weakening_children belief_id
  if supporting = [] ∧ weakening = [] then
    t.updateNode belief_id (fun n => { n with propagated_score := n.reason_rank })
  else
    let impact := (supporting.map (fun c => c.propagated_score * c.linkage_score)).sum
    let counter_impact := (weakening.map (fun c => c.propagated_score * c.linkage_score)).sum
    let net_impact := impact - counter_impact
    t.updateNode belief_id (fun n =>
      let p := max (net_impact * n.linkage_score * n.truth_score * n.uniqueness_score)
        MIN_RANK_SCORE
      { n with propagated_score := p, reason_rank := p })

/-- The second pass of `compute_all_scores`: process the post-order list. -/
def applyScores (t : ArgumentTree) (order : List String) : ArgumentTree :=
  order.foldl scoreStep t

/-- `ArgumentTree.compute_all_scores`: base ranks for all nodes, then the
bottom-up propagation along the post-order DFS of the children index. -/
def compute_all_scores (t : ArgumentTree) : ArgumentTree :=
  let t1 := setBaseRanks t
  applyScores t1 (topoSort t1)

end ArgumentTree

/-- The reference recurrence for `compute_all_scores`, written exactly as
the specification states it: a node with no children (present in the tree)
scores its base rank; an internal node scores
`max(net x linkage x truth x uniqueness, MIN_RANK_SCORE)` where `net` is
the supporting children's `propagated x linkage` sum minus the weakening
children's.  The fuel argument only serves Lean's termination; any fuel
exceeding the node's depth gives the same value (proved below). -/
def specScore (t : ArgumentTree) : Nat → String → ℚ
  | 0, id => (t.node id).compute_base_rank
  | fuel+1, id =>
    let cs := t.kidsOf id
    if cs = [] then (t.node id).compute_base_rank
    else
      let sup := cs.filter (fun c => (t.node c).side = "supporting")
      let weak := cs.filter (fun c => (t.node c).side = "weakening")
      let impact := (sup.map (fun c => specScore t fuel c * (t.node c).linkage_score)).sum
      let counter_impact :=
        (weak.map (fun c => specScore t fuel c * (t.node c).linkage_score)).sum
      max ((impact - counter_impact) * (t.node id).linkage_score * (t.node id).truth_score
          * (t.node id).uniqueness_score)
        MIN_RANK_SCORE

/-- An order is closed over `done` when each element's present children all
lie in `done` or earlier in the order.  `topoSort` produces a list that is
closed over `[]`; `applyScores` consumes exactly this shape. -/
def ClosedFrom (t : ArgumentTree) : List String → List String → Prop
  | _, [] => True
  | done, id :: rest =>
    (∀ c ∈ t.kidsOf id, c ∈ done) ∧ ClosedFrom t (done ++ [id]) rest

/-- Invariant carried through the DFS of `topoVisit` on a
(visited, order) state: the order has no duplicates, lies inside the
visited set, the visited set holds only node ids, and the order is closed
(children of each element appear earlier). -/
def TopoInv (t : ArgumentTree) (vo : List String × List String) : Prop :=
  vo.2.Nodup ∧ (∀ x ∈ vo.2, x ∈ vo.1) ∧ (∀ x ∈ vo.1, x ∈ t.ids) ∧ ClosedFrom t [] vo.2

/-- Equality of the fields of a `BeliefNode` that the propagation pass
never writes (it only writes `reason_rank` and `propagated_score`). -/
def staticEq (n m : BeliefNode) : Prop :=
  n.side = m.side ∧ n.truth_score = m.truth_score ∧ n.linkage_score = m.linkage_score ∧
  n.importance_score = m.importance_score ∧ n.uniqueness_score = m.uniqueness_score

/-! ## pipeline/scoring/uniqueness.py

`check_and_penalize` computes, per sibling group, a similarity matrix
(transformer cosine, or TF-IDF cosine whose `log`-based idf weights are
transcendental), and then runs a double loop over index pairs `i < j`
applying at most one penalty per pair.  The matrix is computed before the
loop from the statements alone, so it is modelled as an input
`sims : Nat → Nat → ℚ`; the loop itself is embedded verbatim. -/

namespace UniquenessChecker

/-- The penalty record appended for each detected pair. -/
structure PenaltyRecord where
  target_id : String
  target_statement : String
  similar_to_id : String
  similar_to_statement : String
  similarity : ℚ
  old_uniqueness : ℚ
  new_uniqueness : ℚ
  penalty_factor : ℚ
deriving Inhabited, DecidableEq

/-- The index pairs `i < j` visited by the double loop
`for i in range(n): for j in range(i+1, n)` (`List.range' s len` is
`[s, s+1, ..., s+len-1]`, so `range(i+1, n)` is `range' (i+1) (n-(i+1))`). -/
def pairIndices (n : Nat) : List (Nat × Nat) :=
  (List.range n).flatMap (fun i => (List.range' (i + 1) (n - (i + 1))).map (fun j => (i, j)))

/-- The penalty target of a detected pair:
`target = b if a.propagated_score >= b.propagated_score else a`, as an
index — the lower-propagated-score sibling, ties going to `j` (the later
sibling). -/
def targetIndex (siblings : List BeliefNode) (i j : Nat) : Nat :=
  if (siblings.getD j default).propagated_score ≤ (siblings.getD i default).propagated_score
  then j else i

/-- The body of the double loop for one pair `(i, j)`: if the similarity
exceeds the threshold, penalise the lower-propagated-score sibling (ties go
to `j`, the later sibling), flooring its uniqueness at 0.01, and append a
penalty record. -/
def penStep (threshold : ℚ) (sims : Nat → Nat → ℚ)
    (st : List BeliefNode × List PenaltyRecord) (i j : Nat) :
    List BeliefNode × List PenaltyRecord :=
  let siblings := st.1
  let sim := sims i j
  if threshold < sim then
    let a := siblings.getD i default
    let b := siblings.getD j default
    let targetIdx := targetIndex siblings i j
    let target := siblings.getD targetIdx default
    let penalty := 1 - (sim - threshold) / (1 - threshold) * (1 - UNIQUENESS_PENALTY_FACTOR)
    let old_score := target.uniqueness_score
    let new_score := max (target.uniqueness_score * penalty) (1/100)
    let other := if targetIdx = j then a else b
    let record : PenaltyRecord :=
      { target_id := target.belief_id, target_statement := target.statement,
        similar_to_id := other.belief_id, similar_to_statement := other.statement,
        similarity := sim, old_uniqueness := old_score, new_uniqueness := new_score,
        penalty_factor := penalty }
    (siblings.set targetIdx { target with uniqueness_score := new_score },
     st.2 ++ [record])
  else st

/-- The per-sibling-group double loop of `check_and_penalize`. -/
def penalizeGroup (threshold : ℚ) (sims : Nat → Nat → ℚ) (siblings : List BeliefNode) :
    List BeliefNode × List PenaltyRecord :=
  (pairIndices siblings.length).foldl (fun st p => penStep threshold sims st p.1 p.2)
    (siblings, [])

end UniquenessChecker

/-! ## pipeline/scoring/reason_rank.py -/

namespace ReasonRankScorer

/-- `ReasonRankScorer.update_and_rescore`: look the node up first and raise
`ValueError` when it is absent (modelled by `Except.error`, produced before
any mutation); otherwise overwrite the provided fitness scores and recompute
the whole tree. -/
def update_and_rescore (tree : ArgumentTree) (belief_id : String)
    (truth_score linkage_score importance_score uniqueness_score : Option ℚ) :
    Except String ArgumentTree :=
  if belief_id ∈ tree.ids then
    let t1 := tree.updateNode belief_id (fun n =>
      let n := match truth_score with
        | some v => { n with truth_score := v }
        | none => n
      let n := match linkage_score with
        | some v => { n with linkage_score := v }
        | none => n
      let n := match importance_score with
        | some v => { n with importance_score := v }
        | none => n
      match uniqueness_score with
      | some v => { n with uniqueness_score := v }
      | none => n)
    Except.ok t1.compute_all_scores
  else
    Except.error ("Node " ++ belief_id ++ " not found in tree")

end ReasonRankScorer

/-! ## Concrete fixtures

Inputs used by witnesses and counterexamples.  Every fixture run uses
`now = 0` with submission times `≥ 0`, so all ages are clamped to 0 hours
and the only novelty-decay value consulted is `powHalf 0`, where
`math.pow(0.5, 0.0) = 1.0` exactly; `testNovelty` therefore agrees with the
source on every evaluated input. -/

/-- Default-parameter novelty calculator (`peak 1.25, halflife 24h,
floor 1.0, threshold 0.5`) whose injected `powHalf` returns 1, the exact
value of `0.5 ** 0.0` (see the section comment). -/
def testNovelty : NoveltyPremiumCalculator := { powHalf := fun _ => 1 }

/-- A `DuplicationScorer` with the source's default configuration (weights
0.4/0.6/0.0, thresholds 0.85/0.50) and no ML engine: the environment where
`sentence_transformers` is unavailable and Layer 2 is the deterministic
trigram fallback. -/
def testScorer : DuplicationScorer := { novelty := testNovelty }

/-- First submission: distinct text from the others. -/
def argA : ArgumentNode := { id := "a1", claim := "red apple", submitted_at := 0 }

/-- Second submission: partially similar to `argA`, and the earliest of the
two arguments with identical text. -/
def argB : ArgumentNode := { id := "a2", claim := "red banana", submitted_at := 1 }

/-- Third submission: text identical to `argB`. -/
def argC : ArgumentNode := { id := "a3", claim := "red banana", submitted_at := 2 }

/-- Cluster fixture: 6 of 8 distinct normalized tokens shared with `novB`
(Layer-1 Jaccard 3/4, below the 0.85 短-circuit threshold) and an embedding
of exact norm 5. -/
def novA : ArgumentNode :=
  { id := "n1", claim := "alpha bravo charlie delta echo foxtrot golf",
    base_score := 50, submitted_at := 0, embedding := some [3, 4] }

/-- Cluster fixture: cosine similarity with `novA` is 24/25 exactly. -/
def novB : ArgumentNode :=
  { id := "n2", claim := "alpha bravo charlie delta echo foxtrot hotel",
    base_score := 50, submitted_at := 0, embedding := some [4, 3] }

/-- A stored embedding with zero norm (truthy in Python: a nonempty list). -/
def embNodeZ : ArgumentNode := { id := "z", claim := "zero vector", embedding := some [0, 0] }

/-- A stored embedding with norm 1. -/
def embNodeY : ArgumentNode := { id := "y", claim := "unit vector", embedding := some [1, 0] }

/-- The empty `ArgumentTree` (`__init__`: empty dicts; the total lookup
defaults outside the dict). -/
def emptyTree : ArgumentTree :=
  { ids := [], node := fun _ => default, childrenIx := fun _ => [] }

/-- Root of the witness tree. -/
def nodeR : BeliefNode :=
  { belief_id := "r", statement := "root claim", truth_score := 9/10,
    linkage_score := 1, importance_score := 1, uniqueness_score := 1 }

/-- Supporting child of the witness tree. -/
def nodeC1 : BeliefNode :=
  { belief_id := "c1", statement := "supporting reason", parent_id := some "r",
    side := "supporting", truth_score := 9/10, linkage_score := 4/5,
    importance_score := 17/20, uniqueness_score := 1 }

/-- Weakening child of the witness tree. -/
def nodeC2 : BeliefNode :=
  { belief_id := "c2", statement := "weakening reason", parent_id := some "r",
    side := "weakening", truth_score := 1/2, linkage_score := 3/5,
    importance_score := 1/2, uniqueness_score := 1 }

/-- A three-node tree: a root with one supporting and one weakening child. -/
def testTree : ArgumentTree :=
  ((emptyTree.add_node nodeR).add_node nodeC1).add_node nodeC2

/-- A depth function witnessing the acyclicity of `testTree`. -/
def testDepth : String → Nat := fun id => if id = "r" then 1 else 0

/-- Two sibling nodes for the uniqueness-penalty witness. -/
def sibX : BeliefNode :=
  { belief_id := "x", statement := "first point", propagated_score := 3/4 }

/-- The lower-scoring sibling. -/
def sibY : BeliefNode :=
  { belief_id := "y", statement := "same point again", propagated_score := 1/2 }

/-- A similarity matrix for the two siblings: 0.9 for the pair (0, 1). -/
def testSims : Nat → Nat → ℚ := fun i j => if i = 0 ∧ j = 1 then 9/10 else 0

/-! ## Theorems -/

/-- Claim C1: whenever the Layer-1 mechanical (Jaccard) similarity of the
two claims reaches the scorer's mechanical threshold, `compare` returns a
pair whose `combined_score` is exactly 1, for every configuration, every
pair of argument nodes (hence every Layer-2 semantic score) and every
optional resolved community debate: `_blend` short-circuits before looking
at the other layers. -/
theorem compare_mechanical_shortcircuit (s : DuplicationScorer)
    (arg_a arg_b : ArgumentNode) (community_debate : Option EquivalenceSubDebate)
    (h : s.mechanical_threshold ≤ MechanicalEquivalenceChecker.score arg_a.claim arg_b.claim) :
    (s.compare arg_a arg_b community_debate).combined_score = 1 := by
  simp only [DuplicationScorer.compare, DuplicationScorer.blend]
  rw [if_pos h]

/-- Witness for C1: two identical claims have mechanical similarity 1, which
meets the default threshold 0.85, so the default scorer reports combined
similarity 1. -/
theorem compare_mechanical_shortcircuit_witness :
    testScorer.mechanical_threshold ≤
      MechanicalEquivalenceChecker.score "tax cuts help" "tax cuts help" ∧
    (testScorer.compare { id := "a", claim := "tax cuts help" }
      { id := "b", claim := "tax cuts help" } none).combined_score = 1 :=
  ⟨by with_unfolding_all decide,
   compare_mechanical_shortcircuit testScorer { id := "a", claim := "tax cuts help" }
     { id := "b", claim := "tax cuts help" } none (by with_unfolding_all decide)⟩

/-- Claim C6 (code bug): on the spec's Scenario A inputs the Layer-1 score
is 1/4, not 1.0.  `normalize` canonicalises "taxes" to "tax" and "lower" to
"decrease", but the inflected forms "rates" and "reduced" are in no synonym
group, so the normalised token sets are \x7bdecrease, rates, tax\x7d and
\x7breduced, tax\x7d: Jaccard 1/4, below the 0.85 threshold.  The pair is
not flagged mechanically equivalent and the blended similarity of the
default scorer stays below 1, contradicting the usage docstring of
`DuplicationScorer` which labels exactly this pair an L1 duplicate. -/
theorem scenario_a_layer1_is_one_quarter :
    MechanicalEquivalenceChecker.score "Tax rates should be lower" "Taxes should be reduced"
      = 1/4 ∧
    MechanicalEquivalenceChecker.normalize "Tax rates should be lower"
      = ["decrease", "rates", "tax"] ∧
    MechanicalEquivalenceChecker.normalize "Taxes should be reduced" = ["reduced", "tax"] ∧
    (testScorer.compare { id := "a1", claim := "Tax rates should be lower" }
      { id := "a2", claim := "Taxes should be reduced" } none).is_mechanical_duplicate
      = false ∧
    (testScorer.compare { id := "a1", claim := "Tax rates should be lower" }
      { id := "a2", claim := "Taxes should be reduced" } none).combined_score < 1 := by
  refine ⟨?_, ?_, ?_, ?_, ?_⟩ <;> with_unfolding_all decide

/-- Claim C8: `update_and_rescore` on an id absent from the tree returns the
explicit not-found error (the `ValueError` of the source), and in particular
never returns a tree: the lookup precedes every mutation, so the tree state
is unchanged on this path. -/
theorem update_and_rescore_unknown_id (tree : ArgumentTree) (belief_id : String)
    (truth_score linkage_score importance_score uniqueness_score : Option ℚ)
    (h : belief_id ∉ tree.ids) :
    ReasonRankScorer.update_and_rescore tree belief_id truth_score linkage_score
        importance_score uniqueness_score =
      Except.error ("Node " ++ belief_id ++ " not found in tree") ∧
    ∀ t2 : ArgumentTree,
      ReasonRankScorer.update_and_rescore tree belief_id truth_score linkage_score
        importance_score uniqueness_score ≠ Except.ok t2 := by
  constructor
  · simp only [ReasonRankScorer.update_and_rescore]
    rw [if_neg h]
  · intro t2
    simp only [ReasonRankScorer.update_and_rescore]
    rw [if_neg h]
    exact fun hc => Except.noConfusion hc

/-- Witness for C8: rescoring the unknown id "x" in the empty tree fails
with the not-found error. -/
theorem update_and_rescore_unknown_id_witness :
    ReasonRankScorer.update_and_rescore emptyTree "x" none none none none =
      Except.error ("Node " ++ "x" ++ " not found in tree") ∧
    ∀ t2 : ArgumentTree,
      ReasonRankScorer.update_and_rescore emptyTree "x" none none none none ≠ Except.ok t2 :=
  update_and_rescore_unknown_id emptyTree "x" none none none none (by with_unfolding_all decide)

/-- Claim C10: with both embeddings stored (and truthy), a zero-norm
embedding makes `SemanticSimilarityScorer.score` return 0 through the guard
`if norm_a == 0 or norm_b == 0` before any division; and whenever both
norms are nonzero the divisor `norm_a * norm_b` is nonzero, so the division
by zero is unreachable. -/
theorem semantic_score_zero_norm_guard :
    (∀ (s : SemanticSimilarityScorer) (arg_a arg_b : ArgumentNode) (va vb : List ℚ),
      arg_a.embedding = some va → arg_b.embedding = some vb →
      va ≠ [] → vb ≠ [] →
      normSq va = 0 ∨ normSq vb = 0 →
      s.score arg_a arg_b = 0) ∧
    (∀ va vb : List ℚ, normSq va ≠ 0 → normSq vb ≠ 0 →
      ratSqrt (normSq va) * ratSqrt (normSq vb) ≠ 0) := by
  have hnonneg : ∀ v : List ℚ, 0 ≤ normSq v := by
    intro v
    refine List.sum_nonneg ?_
    intro q hq
    obtain ⟨x, _, rfl⟩ := List.mem_map.mp hq
    exact mul_self_nonneg x
  have hsqrt : ∀ q : ℚ, 0 ≤ q → q ≠ 0 → ratSqrt q ≠ 0 := by
    intro q hq hne
    have hpos : 0 < q := lt_of_le_of_ne hq (Ne.symm hne)
    have hnum : 0 < q.num := Rat.num_pos.mpr hpos
    have h1 : 0 < Nat.sqrt q.num.natAbs := by
      rw [Nat.sqrt_pos]
      omega
    have h2 : 0 < Nat.sqrt q.den := by
      rw [Nat.sqrt_pos]
      exact q.den_pos
    unfold ratSqrt
    refine div_ne_zero ?_ ?_
    · exact_mod_cast Nat.pos_iff_ne_zero.mp h1
    · exact_mod_cast Nat.pos_iff_ne_zero.mp h2
  constructor
  · intro s arg_a arg_b va vb ha hb hva hvb hz
    have hta : embTruthy (some va) = true := by
      cases va with
      | nil => exact absurd rfl hva
      | cons a l => rfl
    have htb : embTruthy (some vb) = true := by
      cases vb with
      | nil => exact absurd rfl hvb
      | cons a l => rfl
    have hz0 : ratSqrt 0 = 0 := by with_unfolding_all decide
    simp only [SemanticSimilarityScorer.score, ha, hb]
    rw [if_pos ⟨hta, htb⟩]
    simp only [Option.getD_some]
    unfold SemanticSimilarityScorer.cosineStored
    rcases hz with hz | hz
    · rw [if_pos (Or.inl (by rw [hz]; exact hz0))]
    · rw [if_pos (Or.inr (by rw [hz]; exact hz0))]
  · intro va vb hva hvb
    exact mul_ne_zero (hsqrt _ (hnonneg va) hva) (hsqrt _ (hnonneg vb) hvb)

/-- Reading a list back off by position: mapping `getD` over
`range l.length` returns `l`. -/
theorem map_getD_range {α : Type} [Inhabited α] (l : List α) :
    (List.range l.length).map (fun i => l.getD i default) = l := by
  induction l with
  | nil => rfl
  | cons a tl ih =>
    have h1 : List.range (a :: tl).length = 0 :: (List.range tl.length).map Nat.succ := by
      simp [List.range_succ_eq_map]
    rw [h1, List.map_cons, List.map_map]
    refine congrArg (List.cons a) ?_
    have h2 : (List.range tl.length).map ((fun i => (a :: tl).getD i default) ∘ Nat.succ)
        = (List.range tl.length).map (fun i => tl.getD i default) := by
      refine List.map_congr_left ?_
      intro i _
      rfl
    rw [h2, ih]

/-- Claim C9: `score_arguments` returns the input argument nodes unchanged,
as a permutation: mapping each `ScoredArgument` back to its `arg` field
recovers exactly the input multiset, every field included.  All outputs are
fresh `ScoredArgument` / `SimilarityPair` records built around the original
nodes; nothing is written to the inputs (`compare` likewise only reads its
arguments and builds a fresh `SimilarityPair`). -/
theorem score_arguments_no_mutation (s : DuplicationScorer) (arguments : List ArgumentNode)
    (community_debates : List ((String × String) × EquivalenceSubDebate)) (now : ℚ) :
    ((s.score_arguments arguments community_debates now).map (fun sc => sc.arg)).Perm
      arguments := by
  simp only [DuplicationScorer.score_arguments]
  refine ((List.mergeSort_perm _ _).map _).trans ?_
  rw [List.map_map]
  have h2 : ((List.range (DuplicationScorer.sortedBySubmission arguments).length).map
        (fun i => (DuplicationScorer.sortedBySubmission arguments).getD i default)).Perm
      arguments := by
    rw [map_getD_range]
    exact List.mergeSort_perm arguments _
  exact h2

/-- Claim C5 (amended): every output of `score_arguments` is the entry of
some position `i` in the submission-sorted input; its similarity pairs are
exactly the comparisons against the strictly earlier candidates (positions
0 to i-1), and the entry at position 0 — the earliest submission overall —
always has uniqueness 1.  (The stronger original claim, that the earliest
member of every identical-text group gets uniqueness 1, is refuted by
`first_mover_counterexample` below.) -/
theorem score_arguments_strictly_earlier (s : DuplicationScorer)
    (arguments : List ArgumentNode)
    (community_debates : List ((String × String) × EquivalenceSubDebate)) (now : ℚ) :
    ∀ sc ∈ s.score_arguments arguments community_debates now,
      ∃ i, i < (DuplicationScorer.sortedBySubmission arguments).length ∧
        sc.arg = (DuplicationScorer.sortedBySubmission arguments).getD i default ∧
        sc.similarity_pairs =
          ((DuplicationScorer.sortedBySubmission arguments).take i).map (fun prior =>
            s.compare ((DuplicationScorer.sortedBySubmission arguments).getD i default) prior
              (DuplicationScorer.pairDebate community_debates
                ((DuplicationScorer.sortedBySubmission arguments).getD i default).id prior.id)) ∧
        (i = 0 → sc.uniqueness_score = 1) := by
  intro sc hsc
  simp only [DuplicationScorer.score_arguments] at hsc
  rw [(List.mergeSort_perm _ _).mem_iff] at hsc
  obtain ⟨i, hir, rfl⟩ := List.mem_map.mp hsc
  refine ⟨i, List.mem_range.mp hir, rfl, rfl, ?_⟩
  rintro rfl
  rfl

/-- Witness for C5's amended theorem: the single-argument run contains its
own entry, at position 0, with no pairs and uniqueness 1. -/
theorem score_arguments_strictly_earlier_witness :
    ∃ i, i < (DuplicationScorer.sortedBySubmission [argA]).length ∧
      ((testScorer.score_arguments [argA] [] 0).getD 0 default).arg =
        (DuplicationScorer.sortedBySubmission [argA]).getD i default ∧
      ((testScorer.score_arguments [argA] [] 0).getD 0 default).similarity_pairs =
        ((DuplicationScorer.sortedBySubmission [argA]).take i).map (fun prior =>
          testScorer.compare ((DuplicationScorer.sortedBySubmission [argA]).getD i default)
            prior
            (DuplicationScorer.pairDebate []
              ((DuplicationScorer.sortedBySubmission [argA]).getD i default).id prior.id)) ∧
      (i = 0 →
        ((testScorer.score_arguments [argA] [] 0).getD 0 default).uniqueness_score = 1) :=
  score_arguments_strictly_earlier testScorer [argA] [] 0
    ((testScorer.score_arguments [argA] [] 0).getD 0 default)
    (by with_unfolding_all decide)

/-- Counterexample for C5 as stated: `argB` and `argC` carry identical text
and `argB` is the earlier of the two, yet `argB`'s uniqueness is not 1,
because `argB` is also compared against the earlier, partially similar
`argA` and uniqueness is one minus the maximum combined similarity over all
earlier arguments — not over the identical-text group only. -/
theorem first_mover_counterexample :
    argB.claim = argC.claim ∧
    argB.submitted_at < argC.submitted_at ∧
    argA.claim ≠ argB.claim ∧
    ((testScorer.score_arguments [argA, argB, argC] [] 0).getD 1 default).arg = argB ∧
    ((testScorer.score_arguments [argA, argB, argC] [] 0).getD 1 default).uniqueness_score
      ≠ 1 := by
  refine ⟨?_, ?_, ?_, ?_, ?_⟩ <;> with_unfolding_all decide

/-- Claim C4 (amended): every cluster's `cluster_score` is exactly the sum
of its members' `effective_contribution` values (looked up through the
cluster's scored map).  The second half of the original claim — that this
sum can never exceed the score of one fully novel argument — is refuted by
`cluster_bound_counterexample` below. -/
theorem cluster_score_is_member_sum (scored : List ScoredArgument)
    (similarity_threshold : ℚ) :
    ∀ cl ∈ DuplicationScorer.cluster_arguments scored similarity_threshold,
      cl.cluster_score = (cl.member_ids.map
        (fun aid => (DuplicationScorer.scoredMapOf scored aid).effective_contribution)).sum := by
  intro cl hcl
  simp only [DuplicationScorer.cluster_arguments] at hcl
  obtain ⟨p, hp, rfl⟩ := List.mem_map.mp hcl
  rfl

/-- Witness for C4's amended theorem: the two-member cluster of the
fixture run sums its members' effective contributions. -/
theorem cluster_score_is_member_sum_witness :
    ((DuplicationScorer.cluster_arguments
        (testScorer.score_arguments [novA, novB] [] 0) (7/10)).getD 0 default).cluster_score =
      (((DuplicationScorer.cluster_arguments
          (testScorer.score_arguments [novA, novB] [] 0) (7/10)).getD 0 default).member_ids.map
        (fun aid => (DuplicationScorer.scoredMapOf
          (testScorer.score_arguments [novA, novB] [] 0) aid).effective_contribution)).sum :=
  cluster_score_is_member_sum (testScorer.score_arguments [novA, novB] [] 0) (7/10)
    ((DuplicationScorer.cluster_arguments
      (testScorer.score_arguments [novA, novB] [] 0) (7/10)).getD 0 default)
    (by with_unfolding_all decide)

/-- Counterexample for C4 as stated: `novA` and `novB` (same base score 50,
same submission time, combined similarity 219/250 = 0.876 ≥ 0.70) form one
cluster whose score 687/10 = 68.7 exceeds 125/2 = 62.5, the score either
argument would receive as one fully novel argument (base 50, uniqueness 1,
novelty multiplier 1.25): the penalised second member still contributes
50 × 0.124 × 1 = 6.2 on top of the first member's full 62.5. -/
theorem cluster_bound_counterexample :
    (DuplicationScorer.cluster_arguments
        (testScorer.score_arguments [novA, novB] [] 0) (7/10)).length = 1 ∧
    ((DuplicationScorer.cluster_arguments
        (testScorer.score_arguments [novA, novB] [] 0) (7/10)).getD 0 default).member_ids =
      ["n1", "n2"] ∧
    ((DuplicationScorer.cluster_arguments
        (testScorer.score_arguments [novA, novB] [] 0) (7/10)).getD 0 default).cluster_score =
      687/10 ∧
    novA.base_score * 1 * testNovelty.multiplier novA.submitted_at 1 0 = 125/2 ∧
    novB.base_score * 1 * testNovelty.multiplier novB.submitted_at 1 0 = 125/2 ∧
    (125 : ℚ)/2 < 687/10 := by
  refine ⟨?_, ?_, ?_, ?_, ?_, ?_⟩ <;> with_unfolding_all decide

/-! ### Structural lemmas for the tree propagation -/

/-- `updateNode` leaves `ids` untouched. -/
theorem updateNode_ids (t : ArgumentTree) (id : String) (f : BeliefNode → BeliefNode) :
    (t.updateNode id f).ids = t.ids := rfl

/-- `updateNode` leaves the children index untouched. -/
theorem updateNode_childrenIx (t : ArgumentTree) (id : String) (f : BeliefNode → BeliefNode) :
    (t.updateNode id f).childrenIx = t.childrenIx := rfl

/-- The pointwise behaviour of `updateNode`. -/
theorem updateNode_node (t : ArgumentTree) (id : String) (f : BeliefNode → BeliefNode)
    (s : String) :
    (t.updateNode id f).node s = if s = id then f (t.node s) else t.node s := rfl

/-- Folding node updates over a list never changes `ids`. -/
theorem foldl_updateNode_ids (g : BeliefNode → BeliefNode) :
    ∀ (l : List String) (acc : ArgumentTree),
      (l.foldl (fun a id => a.updateNode id g) acc).ids = acc.ids := by
  intro l
  induction l with
  | nil => intro acc; rfl
  | cons x xs ih => intro acc; rw [List.foldl_cons]; exact ih _

/-- Folding node updates over a list never changes the children index. -/
theorem foldl_updateNode_childrenIx (g : BeliefNode → BeliefNode) :
    ∀ (l : List String) (acc : ArgumentTree),
      (l.foldl (fun a id => a.updateNode id g) acc).childrenIx = acc.childrenIx := by
  intro l
  induction l with
  | nil => intro acc; rfl
  | cons x xs ih => intro acc; rw [List.foldl_cons]; exact ih _

/-- Folding an idempotent node update over a list applies it exactly to the
listed ids. -/
theorem foldl_updateNode_node (g : BeliefNode → BeliefNode) (hg : ∀ n, g (g n) = g n) :
    ∀ (l : List String) (acc : ArgumentTree) (s : String),
      (l.foldl (fun a id => a.updateNode id g) acc).node s
        = if s ∈ l then g (acc.node s) else acc.node s := by
  intro l
  induction l with
  | nil => intro acc s; simp
  | cons x xs ih =>
    intro acc s
    rw [List.foldl_cons, ih]
    by_cases hx : s = x
    · subst hx
      have hupd : (acc.updateNode s g).node s = g (acc.node s) := by
        rw [updateNode_node, if_pos rfl]
      by_cases hm : s ∈ xs
      · rw [if_pos hm, if_pos (List.mem_cons_self _ _), hupd, hg]
      · rw [if_neg hm, if_pos (List.mem_cons_self _ _), hupd]
    · have hupd : (acc.updateNode x g).node s = acc.node s := by
        rw [updateNode_node, if_neg hx]
      by_cases hm : s ∈ xs
      · rw [if_pos hm, if_pos (List.mem_cons_of_mem _ hm), hupd]
      · rw [if_neg hm, hupd, if_neg (by
          intro hc
          rcases List.mem_cons.mp hc with h | h
          · exact hx h
          · exact hm h)]

/-- `setBaseRanks` keeps `ids`. -/
theorem setBaseRanks_ids (t : ArgumentTree) : (t.setBaseRanks).ids = t.ids :=
  foldl_updateNode_ids _ _ _

/-- `setBaseRanks` keeps the children index. -/
theorem setBaseRanks_childrenIx (t : ArgumentTree) :
    (t.setBaseRanks).childrenIx = t.childrenIx :=
  foldl_updateNode_childrenIx _ _ _

/-- `setBaseRanks` writes exactly the base rank into `reason_rank` of every
node in the tree and touches nothing else. -/
theorem setBaseRanks_node (t : ArgumentTree) (s : String) :
    (t.setBaseRanks).node s =
      if s ∈ t.ids then { t.node s with reason_rank := (t.node s).compute_base_rank }
      else t.node s :=
  foldl_updateNode_node (fun n => { n with reason_rank := n.compute_base_rank })
    (fun _ => rfl) t.ids t s

/-- `setBaseRanks` keeps the present-children lists. -/
theorem setBaseRanks_kidsOf (t : ArgumentTree) (id : String) :
    (t.setBaseRanks).kidsOf id = t.kidsOf id := by
  unfold ArgumentTree.kidsOf
  rw [setBaseRanks_childrenIx]
  have h : ∀ c : String, (c ∈ (t.setBaseRanks).ids) = (c ∈ t.ids) := by
    intro c; rw [setBaseRanks_ids]
  simp only [setBaseRanks_ids]

/-- `scoreStep` keeps `ids`. -/
theorem scoreStep_ids (t : ArgumentTree) (id : String) : (t.scoreStep id).ids = t.ids := by
  simp only [ArgumentTree.scoreStep]
  split <;> rfl

/-- `scoreStep` keeps the children index. -/
theorem scoreStep_childrenIx (t : ArgumentTree) (id : String) :
    (t.scoreStep id).childrenIx = t.childrenIx := by
  simp only [ArgumentTree.scoreStep]
  split <;> rfl

/-- `scoreStep` only writes the node it processes. -/
theorem scoreStep_node_other (t : ArgumentTree) (id x : String) (hx : x ≠ id) :
    (t.scoreStep id).node x = t.node x := by
  simp only [ArgumentTree.scoreStep]
  split <;> (rw [updateNode_node, if_neg hx])

/-- `scoreStep` never writes the static fields, on any node. -/
theorem scoreStep_static (t : ArgumentTree) (id x : String) :
    staticEq ((t.scoreStep id).node x) (t.node x) := by
  by_cases hx : x = id
  · subst hx
    simp only [ArgumentTree.scoreStep]
    split <;> (rw [updateNode_node, if_pos rfl]; exact ⟨rfl, rfl, rfl, rfl, rfl⟩)
  · rw [scoreStep_node_other t id x hx]
    exact ⟨rfl, rfl, rfl, rfl, rfl⟩

/-- `staticEq` is transitive. -/
theorem staticEq_trans {a b c : BeliefNode} (h1 : staticEq a b) (h2 : staticEq b c) :
    staticEq a c := by
  obtain ⟨s1, t1, l1, i1, u1⟩ := h1
  obtain ⟨s2, t2, l2, i2, u2⟩ := h2
  exact ⟨s1.trans s2, t1.trans t2, l1.trans l2, i1.trans i2, u1.trans u2⟩

/-- Splitting a closed order at its last element. -/
theorem closedFrom_append (t : ArgumentTree) :
    ∀ (order done : List String) (id : String),
      ClosedFrom t done (order ++ [id]) ↔
        (ClosedFrom t done order ∧ ∀ c ∈ t.kidsOf id, c ∈ done ++ order) := by
  intro order
  induction order with
  | nil =>
    intro done id
    simp only [List.nil_append, List.append_nil]
    constructor
    · intro h; exact ⟨trivial, h.1⟩
    · intro h; exact ⟨h.2, trivial⟩
  | cons x xs ih =>
    intro done id
    simp only [List.cons_append, ClosedFrom, List.append_eq]
    rw [ih (done ++ [x]) id]
    constructor
    · rintro ⟨h1, h2, h3⟩
      refine ⟨⟨h1, h2⟩, ?_⟩
      intro c hc
      have := h3 c hc
      simpa [List.append_assoc] using this
    · rintro ⟨⟨h1, h2⟩, h3⟩
      refine ⟨h1, h2, ?_⟩
      intro c hc
      have := h3 c hc
      simpa [List.append_assoc] using this

/-- `ClosedFrom` only looks at the present-children lists, so it transfers
between trees with the same children structure. -/
theorem closedFrom_congr (t1 t2 : ArgumentTree)
    (hk : ∀ id, t1.kidsOf id = t2.kidsOf id) :
    ∀ (order done : List String), ClosedFrom t1 done order → ClosedFrom t2 done order := by
  intro order
  induction order with
  | nil => intro done _; trivial
  | cons x xs ih =>
    intro done h
    exact ⟨fun c hc => h.1 c (by rw [hk]; exact hc), ih _ h.2⟩

/-- Correctness of the post-order DFS `topoVisit`, under a depth function
witnessing the acyclicity of the present-children relation (the tree
invariant of the data model): one call with fuel above the depth of its id
preserves the invariant, only extends visited and order, leaves the stack
(visited minus order) no larger, finishes its id, and appends only
previously unvisited ids. -/
theorem topoVisit_spec (t : ArgumentTree) (d : String → Nat)
    (hdep : ∀ id ∈ t.ids, ∀ c ∈ t.kidsOf id, d c < d id) :
    ∀ (fuel : Nat) (id : String) (vo : List String × List String),
      id ∈ t.ids → d id < fuel → TopoInv t vo →
      (∀ x ∈ vo.1, x ∉ vo.2 → d id < d x) →
      (∀ x ∈ vo.1, x ∈ (ArgumentTree.topoVisit t fuel id vo).1) ∧
      (∃ ext, (ArgumentTree.topoVisit t fuel id vo).2 = vo.2 ++ ext) ∧
      TopoInv t (ArgumentTree.topoVisit t fuel id vo) ∧
      (∀ x ∈ (ArgumentTree.topoVisit t fuel id vo).1,
        x ∉ (ArgumentTree.topoVisit t fuel id vo).2 → x ∈ vo.1 ∧ x ∉ vo.2) ∧
      id ∈ (ArgumentTree.topoVisit t fuel id vo).2 ∧
      (∀ x ∈ (ArgumentTree.topoVisit t fuel id vo).2, x ∈ vo.2 ∨ x ∉ vo.1) := by
  intro fuel
  induction fuel with
  | zero =>
    intro id vo hid hfuel
    exact absurd hfuel (Nat.not_lt_zero _)
  | succ f ih =>
    intro id vo hid hfuel hinv hstack
    by_cases hvis : id ∈ vo.1
    · have hres : ArgumentTree.topoVisit t (f + 1) id vo = vo := by
        simp only [ArgumentTree.topoVisit]
        rw [if_pos hvis]
      rw [hres]
      have hid2 : id ∈ vo.2 := by
        by_contra hno
        exact absurd (hstack id hvis hno) (lt_irrefl _)
      exact ⟨fun x hx => hx, ⟨[], (List.append_nil _).symm⟩, hinv,
        fun x hx hnx => ⟨hx, hnx⟩, hid2, fun x hx => Or.inl hx⟩
    · obtain ⟨hnodup, hsub, hvids, hclosed⟩ := hinv
      have loop : ∀ (cs : List String),
          (∀ c ∈ cs, c ∈ t.ids ∧ d c < f) →
          ∀ (w : List String × List String), TopoInv t w →
          (∀ x ∈ w.1, x ∉ w.2 → ∀ c ∈ cs, d c < d x) →
          (∀ x ∈ w.1,
            x ∈ (cs.foldl (fun acc c => ArgumentTree.topoVisit t f c acc) w).1) ∧
          (∃ ext,
            (cs.foldl (fun acc c => ArgumentTree.topoVisit t f c acc) w).2 = w.2 ++ ext) ∧
          TopoInv t (cs.foldl (fun acc c => ArgumentTree.topoVisit t f c acc) w) ∧
          (∀ x ∈ (cs.foldl (fun acc c => ArgumentTree.topoVisit t f c acc) w).1,
            x ∉ (cs.foldl (fun acc c => ArgumentTree.topoVisit t f c acc) w).2 →
            x ∈ w.1 ∧ x ∉ w.2) ∧
          (∀ c ∈ cs,
            c ∈ (cs.foldl (fun acc c => ArgumentTree.topoVisit t f c acc) w).2) ∧
          (∀ x ∈ (cs.foldl (fun acc c => ArgumentTree.topoVisit t f c acc) w).2,
            x ∈ w.2 ∨ x ∉ w.1) := by
        intro cs
        induction cs with
        | nil =>
          intro _ w hw _
          simp only [List.foldl_nil]
          exact ⟨fun x hx => hx, ⟨[], (List.append_nil _).symm⟩, hw,
            fun x hx hnx => ⟨hx, hnx⟩, fun c hc => absurd hc (List.not_mem_nil c),
            fun x hx => Or.inl hx⟩
        | cons c cs2 ihc =>
          intro hcs w hw hwstack
          rw [List.foldl_cons]
          have hc := hcs c (List.mem_cons_self _ _)
          have hvisit := ih c w hc.1 hc.2 hw
            (fun x hx hnx => hwstack x hx hnx c (List.mem_cons_self _ _))
          obtain ⟨v_mono, ⟨ext1, v_ext⟩, v_inv, v_shrink, v_mem, v_fresh⟩ := hvisit
          have hrest := ihc (fun c2 hc2 => hcs c2 (List.mem_cons_of_mem _ hc2))
            (ArgumentTree.topoVisit t f c w) v_inv
            (fun x hx hnx c2 hc2 => by
              obtain ⟨hx2, hnx2⟩ := v_shrink x hx hnx
              exact hwstack x hx2 hnx2 c2 (List.mem_cons_of_mem _ hc2))
          obtain ⟨r_mono, ⟨ext2, r_ext⟩, r_inv, r_shrink, r_mem, r_fresh⟩ := hrest
          refine ⟨fun x hx => r_mono x (v_mono x hx),
            ⟨ext1 ++ ext2, by rw [r_ext, v_ext, List.append_assoc]⟩,
            r_inv,
            fun x hx hnx => by
              obtain ⟨hx2, hnx2⟩ := r_shrink x hx hnx
              exact v_shrink x hx2 hnx2,
            ?_,
            fun x hx => by
              rcases r_fresh x hx with h2 | h2
              · rcases v_fresh x h2 with h3 | h3
                · exact Or.inl h3
                · exact Or.inr h3
              · exact Or.inr (fun hx1 => h2 (v_mono x hx1))⟩
          intro c2 hc2
          rcases List.mem_cons.mp hc2 with rfl | h2
          · rw [r_ext]
            exact List.mem_append_left _ v_mem
          · exact r_mem c2 h2
      have hkids : ∀ c ∈ t.kidsOf id, c ∈ t.ids ∧ d c < f := by
        intro c hc
        refine ⟨of_decide_eq_true (List.mem_filter.mp hc).2, ?_⟩
        have h1 := hdep id hid c hc
        omega
      have hinv2 : TopoInv t (id :: vo.1, vo.2) := by
        refine ⟨hnodup, fun x hx => List.mem_cons_of_mem _ (hsub x hx), ?_, hclosed⟩
        intro x hx
        rcases List.mem_cons.mp hx with rfl | h2
        · exact hid
        · exact hvids x h2
      have hstack2 : ∀ x ∈ (id :: vo.1, vo.2).1, x ∉ (id :: vo.1, vo.2).2 →
          ∀ c ∈ t.kidsOf id, d c < d x := by
        intro x hx hnx c hc
        rcases List.mem_cons.mp hx with rfl | h2
        · exact hdep x hid c hc
        · exact lt_trans (hdep id hid c hc) (hstack x h2 hnx)
      have hloop := loop (t.kidsOf id) hkids (id :: vo.1, vo.2) hinv2 hstack2
      obtain ⟨l_mono, ⟨ext, l_ext⟩, l_inv, l_shrink, l_mem, l_fresh⟩ := hloop
      obtain ⟨l_nodup, l_sub, l_vids, l_closed⟩ := l_inv
      have hres : ArgumentTree.topoVisit t (f + 1) id vo =
          (((t.kidsOf id).foldl (fun acc c => ArgumentTree.topoVisit t f c acc)
              (id :: vo.1, vo.2)).1,
           ((t.kidsOf id).foldl (fun acc c => ArgumentTree.topoVisit t f c acc)
              (id :: vo.1, vo.2)).2 ++ [id]) := by
        simp only [ArgumentTree.topoVisit]
        rw [if_neg hvis]
      rw [hres]
      have hid_not_in_R2 :
          id ∉ ((t.kidsOf id).foldl (fun acc c => ArgumentTree.topoVisit t f c acc)
            (id :: vo.1, vo.2)).2 := by
        intro hmem
        rcases l_fresh id hmem with h2 | h2
        · exact hvis (hsub id h2)
        · exact h2 (List.mem_cons_self _ _)
      refine ⟨?_, ?_, ⟨?_, ?_, ?_, ?_⟩, ?_, ?_, ?_⟩
      · intro x hx
        exact l_mono x (List.mem_cons_of_mem _ hx)
      · exact ⟨ext ++ [id], by rw [l_ext, List.append_assoc]⟩
      · rw [List.nodup_append]
        refine ⟨l_nodup, List.nodup_singleton _, ?_⟩
        intro x hx hx2
        rw [List.mem_singleton] at hx2
        subst hx2
        exact hid_not_in_R2 hx
      · intro x hx
        rcases List.mem_append.mp hx with h2 | h2
        · exact l_sub x h2
        · rw [List.mem_singleton] at h2
          subst h2
          exact l_mono x (List.mem_cons_self _ _)
      · exact l_vids
      · rw [closedFrom_append]
        refine ⟨l_closed, ?_⟩
        intro c hc
        simpa using l_mem c hc
      · intro x hx hnx
        have hnx2 : x ∉ ((t.kidsOf id).foldl
            (fun acc c => ArgumentTree.topoVisit t f c acc) (id :: vo.1, vo.2)).2 :=
          fun h2 => hnx (List.mem_append_left _ h2)
        have hxid : x ≠ id := by
          intro he
          refine hnx ?_
          rw [he]
          exact List.mem_append_right _ (List.mem_singleton.mpr rfl)
        obtain ⟨h3, h4⟩ := l_shrink x hx hnx2
        rcases List.mem_cons.mp h3 with rfl | h5
        · exact absurd rfl hxid
        · exact ⟨h5, h4⟩
      · exact List.mem_append_right _ (List.mem_singleton.mpr rfl)
      · intro x hx
        rcases List.mem_append.mp hx with h2 | h2
        · rcases l_fresh x h2 with h3 | h3
          · exact Or.inl h3
          · exact Or.inr (fun h4 => h3 (List.mem_cons_of_mem _ h4))
        · rw [List.mem_singleton] at h2
          subst h2
          exact Or.inr hvis

/-- Correctness of `topoSort` under a depth function witnessing acyclicity
with depths below the node count: the produced order has no duplicates, is
closed (children before parents), and contains exactly the tree's ids. -/
theorem topoSort_spec (t : ArgumentTree) (d : String → Nat)
    (hdep : ∀ id ∈ t.ids, ∀ c ∈ t.kidsOf id, d c < d id)
    (hbound : ∀ id ∈ t.ids, d id < t.ids.length) :
    (ArgumentTree.topoSort t).Nodup ∧
    ClosedFrom t [] (ArgumentTree.topoSort t) ∧
    (∀ x ∈ ArgumentTree.topoSort t, x ∈ t.ids) ∧
    (∀ id ∈ t.ids, id ∈ ArgumentTree.topoSort t) := by
  have main : ∀ (l : List String), (∀ id ∈ l, id ∈ t.ids) →
      ∀ (vo : List String × List String), TopoInv t vo → (∀ x ∈ vo.1, x ∈ vo.2) →
      TopoInv t (l.foldl (fun vo id =>
        if id ∈ vo.1 then vo else ArgumentTree.topoVisit t (t.ids.length + 1) id vo) vo) ∧
      (∀ x ∈ (l.foldl (fun vo id =>
          if id ∈ vo.1 then vo else ArgumentTree.topoVisit t (t.ids.length + 1) id vo) vo).1,
        x ∈ (l.foldl (fun vo id =>
          if id ∈ vo.1 then vo else ArgumentTree.topoVisit t (t.ids.length + 1) id vo) vo).2) ∧
      (∀ x ∈ vo.2, x ∈ (l.foldl (fun vo id =>
        if id ∈ vo.1 then vo else ArgumentTree.topoVisit t (t.ids.length + 1) id vo) vo).2) ∧
      (∀ id ∈ l, id ∈ (l.foldl (fun vo id =>
        if id ∈ vo.1 then vo else ArgumentTree.topoVisit t (t.ids.length + 1) id vo) vo).2) := by
    intro l
    induction l with
    | nil =>
      intro _ vo hinv hempty
      simp only [List.foldl_nil]
      exact ⟨hinv, hempty, fun x hx => hx, fun id hid => absurd hid (List.not_mem_nil id)⟩
    | cons x xs ihl =>
      intro hl vo hinv hempty
      rw [List.foldl_cons]
      by_cases hx : x ∈ vo.1
      · rw [if_pos hx]
        have h2 := ihl (fun i hi => hl i (List.mem_cons_of_mem _ hi)) vo hinv hempty
        refine ⟨h2.1, h2.2.1, h2.2.2.1, ?_⟩
        intro id hid
        rcases List.mem_cons.mp hid with rfl | h3
        · exact h2.2.2.1 id (hempty id hx)
        · exact h2.2.2.2 id h3
      · rw [if_neg hx]
        have hxids : x ∈ t.ids := hl x (List.mem_cons_self _ _)
        have hv := topoVisit_spec t d hdep (t.ids.length + 1) x vo hxids
          (by have := hbound x hxids; omega) hinv
          (fun y hy hny => absurd (hempty y hy) hny)
        obtain ⟨v_mono, ⟨ext1, v_ext⟩, v_inv, v_shrink, v_mem, v_fresh⟩ := hv
        have hempty2 : ∀ y ∈ (ArgumentTree.topoVisit t (t.ids.length + 1) x vo).1,
            y ∈ (ArgumentTree.topoVisit t (t.ids.length + 1) x vo).2 := by
          intro y hy
          by_contra hny
          obtain ⟨hy1, hny1⟩ := v_shrink y hy hny
          exact hny1 (hempty y hy1)
        have h2 := ihl (fun i hi => hl i (List.mem_cons_of_mem _ hi))
          (ArgumentTree.topoVisit t (t.ids.length + 1) x vo) v_inv hempty2
        refine ⟨h2.1, h2.2.1, ?_, ?_⟩
        · intro y hy
          refine h2.2.2.1 y ?_
          rw [v_ext]
          exact List.mem_append_left _ hy
        · intro id hid
          rcases List.mem_cons.mp hid with rfl | h3
          · exact h2.2.2.1 id v_mem
          · exact h2.2.2.2 id h3
  have hstart : TopoInv t (([] : List String), ([] : List String)) := by
    refine ⟨List.nodup_nil, ?_, ?_, ?_⟩
    · intro x hx; exact absurd hx (List.not_mem_nil x)
    · intro x hx; exact absurd hx (List.not_mem_nil x)
    · trivial
  have h := main t.ids (fun id hid => hid) ([], []) hstart
    (fun x hx => absurd hx (List.not_mem_nil x))
  obtain ⟨⟨f_nodup, f_sub, f_vids, f_closed⟩, f_empty, _, f_all⟩ := h
  exact ⟨f_nodup, f_closed, fun x hx => f_vids x (f_sub x hx), f_all⟩

/-- `specScore` does not depend on its fuel once the fuel exceeds the depth
of the node (under the acyclicity depth function). -/
theorem specScore_fuel_irrel (t : ArgumentTree) (d : String → Nat)
    (hdep : ∀ id ∈ t.ids, ∀ c ∈ t.kidsOf id, d c < d id) :
    ∀ (n : Nat) (id : String), id ∈ t.ids → d id < n →
      ∀ (f g : Nat), d id < f → d id < g → specScore t f id = specScore t g id := by
  intro n
  induction n with
  | zero =>
    intro id _ h
    exact absurd h (Nat.not_lt_zero _)
  | succ n ihn =>
    intro id hid hdn f g hf hg
    obtain ⟨f1, rfl⟩ : ∃ f1, f = f1 + 1 := ⟨f - 1, by omega⟩
    obtain ⟨g1, rfl⟩ : ∃ g1, g = g1 + 1 := ⟨g - 1, by omega⟩
    simp only [specScore]
    by_cases hcs : t.kidsOf id = []
    · rw [if_pos hcs, if_pos hcs]
    · rw [if_neg hcs, if_neg hcs]
      have hpoint : ∀ c ∈ t.kidsOf id,
          specScore t f1 c * (t.node c).linkage_score
            = specScore t g1 c * (t.node c).linkage_score := by
        intro c hc
        have hcid : c ∈ t.ids := of_decide_eq_true (List.mem_filter.mp hc).2
        have hdc := hdep id hid c hc
        rw [ihn c hcid (by omega) f1 g1 (by omega) (by omega)]
      have hsup : ((t.kidsOf id).filter
            (fun c => (t.node c).side = "supporting")).map
            (fun c => specScore t f1 c * (t.node c).linkage_score)
          = ((t.kidsOf id).filter
            (fun c => (t.node c).side = "supporting")).map
            (fun c => specScore t g1 c * (t.node c).linkage_score) :=
        List.map_congr_left (fun c hc => hpoint c (List.mem_filter.mp hc).1)
      have hweak : ((t.kidsOf id).filter
            (fun c => (t.node c).side = "weakening")).map
            (fun c => specScore t f1 c * (t.node c).linkage_score)
          = ((t.kidsOf id).filter
            (fun c => (t.node c).side = "weakening")).map
            (fun c => specScore t g1 c * (t.node c).linkage_score) :=
        List.map_congr_left (fun c hc => hpoint c (List.mem_filter.mp hc).1)
      rw [hsup, hweak]

/-- One step of the propagation pass computes exactly the specification
recurrence for its node, provided the node's children (as recorded in the
original tree) already hold their specification scores and the state agrees
with the original tree on everything the step reads. -/
theorem scoreStep_value (t0 : ArgumentTree) (d : String → Nat)
    (hdep : ∀ id ∈ t0.ids, ∀ c ∈ t0.kidsOf id, d c < d id)
    (hside : ∀ id ∈ t0.ids,
      (t0.node id).side = "supporting" ∨ (t0.node id).side = "weakening")
    (s : ArgumentTree) (id : String)
    (hids : s.ids = t0.ids) (hch : s.childrenIx = t0.childrenIx)
    (hstatic : ∀ x, staticEq (s.node x) (t0.node x))
    (hid : id ∈ t0.ids)
    (hrr : (s.node id).reason_rank = (t0.node id).compute_base_rank)
    (hkid_scores : ∀ c ∈ t0.kidsOf id,
      (s.node c).propagated_score = specScore t0 (d c + 1) c) :
    ((s.scoreStep id).node id).propagated_score = specScore t0 (d id + 1) id := by
  have hk : s.kidsOf id = t0.kidsOf id := by
    unfold ArgumentTree.kidsOf
    rw [hch]
    simp only [hids]
  have hfilter : ∀ sideStr : String,
      (t0.kidsOf id).filter (fun c => decide ((s.node c).side = sideStr))
        = (t0.kidsOf id).filter (fun c => decide ((t0.node c).side = sideStr)) := by
    intro sideStr
    refine List.filter_congr ?_
    intro c _
    rw [(hstatic c).1]
  have hsupp : s.get_supporting_children id =
      ((t0.kidsOf id).filter (fun c => decide ((t0.node c).side = "supporting"))).map
        s.node := by
    unfold ArgumentTree.get_supporting_children ArgumentTree.get_children
    rw [hk, List.map_filter, ← hfilter]
    rfl
  have hweakn : s.get_weakening_children id =
      ((t0.kidsOf id).filter (fun c => decide ((t0.node c).side = "weakening"))).map
        s.node := by
    unfold ArgumentTree.get_weakening_children ArgumentTree.get_children
    rw [hk, List.map_filter, ← hfilter]
    rfl
  by_cases hcs : t0.kidsOf id = []
  · have hleaf : s.get_supporting_children id = [] ∧ s.get_weakening_children id = [] := by
      rw [hsupp, hweakn, hcs]
      exact ⟨rfl, rfl⟩
    have hstep : ((s.scoreStep id).node id).propagated_score = (s.node id).reason_rank := by
      simp only [ArgumentTree.scoreStep]
      rw [if_pos hleaf, updateNode_node, if_pos rfl]
    rw [hstep, hrr]
    simp only [specScore]
    rw [if_pos hcs]
  · have hnotleaf : ¬(s.get_supporting_children id = [] ∧
        s.get_weakening_children id = []) := by
      obtain ⟨c, hc⟩ := List.exists_mem_of_ne_nil _ hcs
      have hcid : c ∈ t0.ids := of_decide_eq_true (List.mem_filter.mp hc).2
      rcases hside c hcid with hs | hs
      · intro h
        have hmem : s.node c ∈ s.get_supporting_children id := by
          rw [hsupp]
          exact List.mem_map_of_mem _ (List.mem_filter.mpr ⟨hc, decide_eq_true hs⟩)
        rw [h.1] at hmem
        exact List.not_mem_nil _ hmem
      · intro h
        have hmem : s.node c ∈ s.get_weakening_children id := by
          rw [hweakn]
          exact List.mem_map_of_mem _ (List.mem_filter.mpr ⟨hc, decide_eq_true hs⟩)
        rw [h.2] at hmem
        exact List.not_mem_nil _ hmem
    have hsum : ∀ sideStr : String,
        (((t0.kidsOf id).filter (fun c => decide ((t0.node c).side = sideStr))).map
            s.node).map (fun c => c.propagated_score * c.linkage_score)
          = ((t0.kidsOf id).filter (fun c => decide ((t0.node c).side = sideStr))).map
            (fun c => specScore t0 (d id) c * (t0.node c).linkage_score) := by
      intro sideStr
      rw [List.map_map]
      refine List.map_congr_left ?_
      intro c hc
      have hck : c ∈ t0.kidsOf id := (List.mem_filter.mp hc).1
      have hcid : c ∈ t0.ids := of_decide_eq_true (List.mem_filter.mp hck).2
      have hdc := hdep id hid c hck
      have hval : (s.node c).propagated_score = specScore t0 (d id) c := by
        rw [hkid_scores c hck]
        exact specScore_fuel_irrel t0 d hdep (d c + 1) c hcid (by omega)
          (d c + 1) (d id) (by omega) (by omega)
      show (s.node c).propagated_score * (s.node c).linkage_score = _
      rw [hval, (hstatic c).2.2.1]
    have hstep : ((s.scoreStep id).node id).propagated_score =
        max ((((s.get_supporting_children id).map
              (fun c => c.propagated_score * c.linkage_score)).sum
            - ((s.get_weakening_children id).map
              (fun c => c.propagated_score * c.linkage_score)).sum)
            * (s.node id).linkage_score * (s.node id).truth_score
            * (s.node id).uniqueness_score)
          MIN_RANK_SCORE := by
      simp only [ArgumentTree.scoreStep]
      rw [if_neg hnotleaf, updateNode_node, if_pos rfl]
    rw [hstep, hsupp, hweakn, hsum "supporting", hsum "weakening",
      (hstatic id).2.2.1, (hstatic id).2.1, (hstatic id).2.2.2.2]
    simp only [specScore]
    rw [if_neg hcs]

/-- The propagation pass, run over an order that is closed with respect to a
state of already-finished nodes, writes the specification score of every
processed node. -/
theorem applyScores_spec (t0 : ArgumentTree) (d : String → Nat)
    (hdep : ∀ id ∈ t0.ids, ∀ c ∈ t0.kidsOf id, d c < d id)
    (hside : ∀ id ∈ t0.ids,
      (t0.node id).side = "supporting" ∨ (t0.node id).side = "weakening") :
    ∀ (order done : List String) (s : ArgumentTree),
      s.ids = t0.ids → s.childrenIx = t0.childrenIx →
      (∀ x, staticEq (s.node x) (t0.node x)) →
      (∀ x ∈ order, x ∈ t0.ids) →
      (done ++ order).Nodup →
      ClosedFrom t0 done order →
      (∀ x ∈ done, (s.node x).propagated_score = specScore t0 (d x + 1) x) →
      (∀ x ∈ t0.ids, x ∉ done →
        (s.node x).reason_rank = (t0.node x).compute_base_rank) →
      ∀ x ∈ done ++ order,
        ((ArgumentTree.applyScores s order).node x).propagated_score
          = specScore t0 (d x + 1) x := by
  intro order
  induction order with
  | nil =>
    intro done s _ _ _ _ _ _ hdone _ x hx
    simp only [ArgumentTree.applyScores, List.foldl_nil]
    rw [List.append_nil] at hx
    exact hdone x hx
  | cons id rest ihr =>
    intro done s hids hch hstatic horder hnodup hclosed hdone hpending x hx
    have hidids : id ∈ t0.ids := horder id (List.mem_cons_self _ _)
    have hid_not_done : id ∉ done := by
      rw [List.nodup_append] at hnodup
      exact fun h => hnodup.2.2 h (List.mem_cons_self _ _)
    obtain ⟨hkidsdone, hclosed2⟩ := hclosed
    have hval := scoreStep_value t0 d hdep hside s id hids hch hstatic hidids
      (hpending id hidids hid_not_done)
      (fun c hc => hdone c (hkidsdone c hc))
    have happ : ArgumentTree.applyScores s (id :: rest)
        = ArgumentTree.applyScores (s.scoreStep id) rest := by
      simp only [ArgumentTree.applyScores, List.foldl_cons]
    rw [happ]
    have hnodup2 : ((done ++ [id]) ++ rest).Nodup := by
      rw [List.append_assoc, List.singleton_append]
      exact hnodup
    have ihapp := ihr (done ++ [id]) (s.scoreStep id)
      ((scoreStep_ids s id).trans hids)
      ((scoreStep_childrenIx s id).trans hch)
      (fun y => staticEq_trans (scoreStep_static s id y) (hstatic y))
      (fun y hy => horder y (List.mem_cons_of_mem _ hy))
      hnodup2 hclosed2
      (by
        intro y hy
        rcases List.mem_append.mp hy with h2 | h2
        · have hyid : y ≠ id := fun he => hid_not_done (he ▸ h2)
          rw [scoreStep_node_other s id y hyid]
          exact hdone y h2
        · rw [List.mem_singleton] at h2
          subst h2
          exact hval)
      (by
        intro y hyids hy
        have hyid : y ≠ id := fun he => hy (he ▸ List.mem_append_right _
          (List.mem_singleton.mpr rfl))
        have hynd : y ∉ done := fun h2 => hy (List.mem_append_left _ h2)
        rw [scoreStep_node_other s id y hyid]
        exact hpending y hyids hynd)
    have hx2 : x ∈ (done ++ [id]) ++ rest := by
      rw [List.append_assoc, List.singleton_append]
      exact hx
    exact ihapp x hx2

/-- The propagation pass keeps every reason rank at or above
`MIN_RANK_SCORE`, keeps every propagated score that is already at or above
the floor there, and floors every processed node's propagated score. -/
theorem applyScores_min :
    ∀ (order : List String) (s : ArgumentTree),
      (∀ x ∈ s.ids, MIN_RANK_SCORE ≤ (s.node x).reason_rank) →
      (∀ x ∈ order, x ∈ s.ids) →
      (∀ x ∈ s.ids,
        MIN_RANK_SCORE ≤ ((ArgumentTree.applyScores s order).node x).reason_rank) ∧
      (∀ x, MIN_RANK_SCORE ≤ (s.node x).propagated_score →
        MIN_RANK_SCORE ≤ ((ArgumentTree.applyScores s order).node x).propagated_score) ∧
      (∀ x ∈ order,
        MIN_RANK_SCORE ≤ ((ArgumentTree.applyScores s order).node x).propagated_score) := by
  intro order
  induction order with
  | nil =>
    intro s hrr _
    simp only [ArgumentTree.applyScores, List.foldl_nil]
    exact ⟨hrr, fun x hx => hx, fun x hx => absurd hx (List.not_mem_nil x)⟩
  | cons id rest ihr =>
    intro s hrr horder
    have hidids : id ∈ s.ids := horder id (List.mem_cons_self _ _)
    have happ : ArgumentTree.applyScores s (id :: rest)
        = ArgumentTree.applyScores (s.scoreStep id) rest := by
      simp only [ArgumentTree.applyScores, List.foldl_cons]
    have hrr_step : ∀ x ∈ (s.scoreStep id).ids,
        MIN_RANK_SCORE ≤ ((s.scoreStep id).node x).reason_rank := by
      intro x hx
      rw [scoreStep_ids] at hx
      by_cases hxid : x = id
      · subst hxid
        simp only [ArgumentTree.scoreStep]
        split
        · rw [updateNode_node, if_pos rfl]
          exact hrr x hx
        · rw [updateNode_node, if_pos rfl]
          exact le_max_right _ _
      · rw [scoreStep_node_other s id x hxid]
        exact hrr x hx
    have hprop_step : ∀ x, MIN_RANK_SCORE ≤ (s.node x).propagated_score →
        MIN_RANK_SCORE ≤ ((s.scoreStep id).node x).propagated_score := by
      intro x hx
      by_cases hxid : x = id
      · subst hxid
        simp only [ArgumentTree.scoreStep]
        split
        · rw [updateNode_node, if_pos rfl]
          exact hrr x hidids
        · rw [updateNode_node, if_pos rfl]
          exact le_max_right _ _
      · rw [scoreStep_node_other s id x hxid]
        exact hx
    have hself_step :
        MIN_RANK_SCORE ≤ ((s.scoreStep id).node id).propagated_score := by
      simp only [ArgumentTree.scoreStep]
      split
      · rw [updateNode_node, if_pos rfl]
        exact hrr id hidids
      · rw [updateNode_node, if_pos rfl]
        exact le_max_right _ _
    have horder2 : ∀ x ∈ rest, x ∈ (s.scoreStep id).ids := by
      intro x hx
      rw [scoreStep_ids]
      exact horder x (List.mem_cons_of_mem _ hx)
    have ih2 := ihr (s.scoreStep id) hrr_step horder2
    rw [happ]
    refine ⟨?_, ?_, ?_⟩
    · intro x hx
      refine ih2.1 x ?_
      rw [scoreStep_ids]
      exact hx
    · intro x hx
      exact ih2.2.1 x (hprop_step x hx)
    · intro x hx
      rcases List.mem_cons.mp hx with rfl | h2
      · exact ih2.2.1 x hself_step
      · exact ih2.2.2 x h2

/-- Claim C2: `compute_all_scores` first writes every node's base rank, then
processes the tree children-before-parents; the final propagated score of
every node equals the specification recurrence `specScore`: a node without
present children scores its base rank, and an internal node scores
`max(net x linkage x truth x uniqueness, MIN_RANK_SCORE)` with `net` the
supporting-minus-weakening sum of `child propagated x child linkage`.
`specScore` reads only the node itself and its descendants, so each score
depends only on the node's own fields and its descendants'.  Hypotheses: a
depth function witnesses the acyclicity of the children index (the tree
invariant of the data model) with depths below the node count, and every
node's side is "supporting" or "weakening". -/
theorem compute_all_scores_postorder (t : ArgumentTree) (d : String → Nat)
    (hdep : ∀ id ∈ t.ids, ∀ c ∈ t.kidsOf id, d c < d id)
    (hbound : ∀ id ∈ t.ids, d id < t.ids.length)
    (hside : ∀ id ∈ t.ids,
      (t.node id).side = "supporting" ∨ (t.node id).side = "weakening") :
    ∀ id ∈ t.ids,
      ((t.compute_all_scores).node id).propagated_score = specScore t (d id + 1) id := by
  intro id hid
  have hkids1 : ∀ x, (t.setBaseRanks).kidsOf x = t.kidsOf x := setBaseRanks_kidsOf t
  have hdep1 : ∀ i ∈ (t.setBaseRanks).ids, ∀ c ∈ (t.setBaseRanks).kidsOf i, d c < d i := by
    intro i hi c hc
    rw [setBaseRanks_ids] at hi
    rw [hkids1] at hc
    exact hdep i hi c hc
  have hbound1 : ∀ i ∈ (t.setBaseRanks).ids, d i < (t.setBaseRanks).ids.length := by
    intro i hi
    rw [setBaseRanks_ids] at hi ⊢
    exact hbound i hi
  obtain ⟨hnodup, hclosed1, hsubset, hcomplete⟩ := topoSort_spec (t.setBaseRanks) d hdep1 hbound1
  have hclosed : ClosedFrom t [] (ArgumentTree.topoSort (t.setBaseRanks)) :=
    closedFrom_congr _ _ hkids1 _ _ hclosed1
  have hstatic : ∀ x, staticEq ((t.setBaseRanks).node x) (t.node x) := by
    intro x
    rw [setBaseRanks_node]
    split
    · exact ⟨rfl, rfl, rfl, rfl, rfl⟩
    · exact ⟨rfl, rfl, rfl, rfl, rfl⟩
  have hpending : ∀ x ∈ t.ids, x ∉ ([] : List String) →
      ((t.setBaseRanks).node x).reason_rank = (t.node x).compute_base_rank := by
    intro x hx _
    rw [setBaseRanks_node, if_pos hx]
  have happly := applyScores_spec t d hdep hside
    (ArgumentTree.topoSort (t.setBaseRanks)) [] (t.setBaseRanks)
    (setBaseRanks_ids t) (setBaseRanks_childrenIx t) hstatic
    (fun x hx => by rw [← setBaseRanks_ids t]; exact hsubset x hx)
    (by rw [List.nil_append]; exact hnodup)
    hclosed
    (fun x hx => absurd hx (List.not_mem_nil x))
    hpending
  have hca : t.compute_all_scores
      = ArgumentTree.applyScores (t.setBaseRanks) (ArgumentTree.topoSort (t.setBaseRanks)) :=
    rfl
  rw [hca]
  refine happly id ?_
  rw [List.nil_append]
  refine hcomplete id ?_
  rw [setBaseRanks_ids]
  exact hid

/-- Witness for C2: on the three-node fixture tree (root, one supporting
child, one weakening child) the root's computed propagated score equals the
specification recurrence. -/
theorem compute_all_scores_postorder_witness :
    ((testTree.compute_all_scores).node "r").propagated_score
      = specScore testTree (testDepth "r" + 1) "r" :=
  compute_all_scores_postorder testTree testDepth
    (by with_unfolding_all decide) (by with_unfolding_all decide)
    (by with_unfolding_all decide) "r" (by with_unfolding_all decide)

/-- Claim C3: `MIN_RANK_SCORE` is strictly positive and, after
`compute_all_scores`, every node of the tree has
`propagated_score ≥ MIN_RANK_SCORE` — no node's score is ever 0.  Both
write sites floor at the base rank (itself floored at `MIN_RANK_SCORE`) or
at `MIN_RANK_SCORE` directly, and the post-order traversal reaches every
node; acyclicity (the depth function of the tree invariant) guarantees the
traversal's completeness. -/
theorem compute_all_scores_positive (t : ArgumentTree) (d : String → Nat)
    (hdep : ∀ id ∈ t.ids, ∀ c ∈ t.kidsOf id, d c < d id)
    (hbound : ∀ id ∈ t.ids, d id < t.ids.length) :
    0 < MIN_RANK_SCORE ∧
    ∀ id ∈ t.ids,
      MIN_RANK_SCORE ≤ ((t.compute_all_scores).node id).propagated_score := by
  constructor
  · norm_num [MIN_RANK_SCORE]
  · intro id hid
    have hkids1 : ∀ x, (t.setBaseRanks).kidsOf x = t.kidsOf x := setBaseRanks_kidsOf t
    have hdep1 : ∀ i ∈ (t.setBaseRanks).ids, ∀ c ∈ (t.setBaseRanks).kidsOf i,
        d c < d i := by
      intro i hi c hc
      rw [setBaseRanks_ids] at hi
      rw [hkids1] at hc
      exact hdep i hi c hc
    have hbound1 : ∀ i ∈ (t.setBaseRanks).ids, d i < (t.setBaseRanks).ids.length := by
      intro i hi
      rw [setBaseRanks_ids] at hi ⊢
      exact hbound i hi
    obtain ⟨_, _, hsubset, hcomplete⟩ := topoSort_spec (t.setBaseRanks) d hdep1 hbound1
    have hrr : ∀ x ∈ (t.setBaseRanks).ids,
        MIN_RANK_SCORE ≤ ((t.setBaseRanks).node x).reason_rank := by
      intro x hx
      rw [setBaseRanks_ids] at hx
      rw [setBaseRanks_node, if_pos hx]
      exact le_max_right _ _
    have hmin := applyScores_min (ArgumentTree.topoSort (t.setBaseRanks)) (t.setBaseRanks)
      hrr hsubset
    have hca : t.compute_all_scores
        = ArgumentTree.applyScores (t.setBaseRanks)
          (ArgumentTree.topoSort (t.setBaseRanks)) := rfl
    rw [hca]
    refine hmin.2.2 id ?_
    refine hcomplete id ?_
    rw [setBaseRanks_ids]
    exact hid

/-- Witness for C3: on the fixture tree, the weakening child's score is
floored at the strictly positive `MIN_RANK_SCORE`. -/
theorem compute_all_scores_positive_witness :
    0 < MIN_RANK_SCORE ∧
    MIN_RANK_SCORE ≤ ((testTree.compute_all_scores).node "c2").propagated_score :=
  ⟨(compute_all_scores_positive testTree testDepth
      (by with_unfolding_all decide) (by with_unfolding_all decide)).1,
   (compute_all_scores_positive testTree testDepth
      (by with_unfolding_all decide) (by with_unfolding_all decide)).2 "c2"
     (by with_unfolding_all decide)⟩

/-- Fold auxiliary for C7: each visited pair appends exactly one penalty
record when its similarity exceeds the threshold and none otherwise, so
the count of records equals the count of detected pairs. -/
theorem penStep_count (threshold : ℚ) (sims : Nat → Nat → ℚ) :
    ∀ (ps : List (Nat × Nat)) (st : List BeliefNode × List UniquenessChecker.PenaltyRecord),
      (ps.foldl (fun st p => UniquenessChecker.penStep threshold sims st p.1 p.2) st).2.length
        = st.2.length +
          (ps.filter (fun p => decide (threshold < sims p.1 p.2))).length := by
  intro ps
  induction ps with
  | nil => intro st; simp
  | cons p rest ih =>
    intro st
    rw [List.foldl_cons, ih]
    by_cases h : threshold < sims p.1 p.2
    · have hstep :
          (UniquenessChecker.penStep threshold sims st p.1 p.2).2.length
            = st.2.length + 1 := by
        simp only [UniquenessChecker.penStep]
        rw [if_pos h]
        simp
      rw [hstep, List.filter_cons, decide_eq_true h]
      simp only [if_true, List.length_cons]
      omega
    · have hstep :
          (UniquenessChecker.penStep threshold sims st p.1 p.2) = st := by
        simp only [UniquenessChecker.penStep]
        rw [if_neg h]
      rw [hstep, List.filter_cons, decide_eq_false h]
      simp

/-- Claim C7: in `check_and_penalize`, for every detected sibling pair
(similarity strictly above the threshold) the loop body applies exactly one
penalty, to the lower-propagated-score sibling of the pair only (ties go to
the later sibling): its uniqueness is multiplied by
`1 - ((sim - threshold)/(1 - threshold)) * (1 - UNIQUENESS_PENALTY_FACTOR)`
and floored at 0.01, while every other position — in particular the
higher-scoring sibling — is left unchanged by that application.  Per pass,
the number of penalty records equals the number of detected pairs, and the
double loop visits each unordered pair `i < j < n` exactly via
`pairIndices`. -/
theorem check_and_penalize_pair_semantics :
    (∀ (threshold : ℚ) (sims : Nat → Nat → ℚ)
        (st : List BeliefNode × List UniquenessChecker.PenaltyRecord) (i j : Nat),
      i < st.1.length → j < st.1.length → i ≠ j → threshold < sims i j →
      ((UniquenessChecker.penStep threshold sims st i j).1.getD
          (UniquenessChecker.targetIndex st.1 i j) default).uniqueness_score =
        max ((st.1.getD (UniquenessChecker.targetIndex st.1 i j) default).uniqueness_score *
            (1 - (sims i j - threshold) / (1 - threshold) * (1 - UNIQUENESS_PENALTY_FACTOR)))
          (1/100) ∧
      (st.1.getD (UniquenessChecker.targetIndex st.1 i j) default).propagated_score ≤
        (st.1.getD i default).propagated_score ∧
      (st.1.getD (UniquenessChecker.targetIndex st.1 i j) default).propagated_score ≤
        (st.1.getD j default).propagated_score ∧
      (∀ k, k ≠ UniquenessChecker.targetIndex st.1 i j →
        (UniquenessChecker.penStep threshold sims st i j).1.getD k default
          = st.1.getD k default) ∧
      (UniquenessChecker.penStep threshold sims st i j).2.length = st.2.length + 1) ∧
    (∀ (threshold : ℚ) (sims : Nat → Nat → ℚ) (siblings : List BeliefNode),
      (UniquenessChecker.penalizeGroup threshold sims siblings).2.length =
        ((UniquenessChecker.pairIndices siblings.length).filter
          (fun p => decide (threshold < sims p.1 p.2))).length) ∧
    (∀ n i j : Nat,
      (i, j) ∈ UniquenessChecker.pairIndices n ↔ i < j ∧ j < n) := by
  refine ⟨?_, ?_, ?_⟩
  · intro threshold sims st i j hi hj hij hsim
    have htlt : UniquenessChecker.targetIndex st.1 i j < st.1.length := by
      unfold UniquenessChecker.targetIndex
      by_cases hc : (st.1.getD j default).propagated_score ≤
          (st.1.getD i default).propagated_score
      · rw [if_pos hc]; exact hj
      · rw [if_neg hc]; exact hi
    have hres : (UniquenessChecker.penStep threshold sims st i j).1 =
        st.1.set (UniquenessChecker.targetIndex st.1 i j)
          { st.1.getD (UniquenessChecker.targetIndex st.1 i j) default with
            uniqueness_score :=
              max ((st.1.getD (UniquenessChecker.targetIndex st.1 i j) default).uniqueness_score *
                  (1 - (sims i j - threshold) / (1 - threshold) *
                    (1 - UNIQUENESS_PENALTY_FACTOR)))
                (1/100) } := by
      simp only [UniquenessChecker.penStep]
      rw [if_pos hsim]
    have hlen : (UniquenessChecker.penStep threshold sims st i j).2.length
        = st.2.length + 1 := by
      simp only [UniquenessChecker.penStep]
      rw [if_pos hsim]
      simp
    refine ⟨?_, ?_, ?_, ?_, hlen⟩
    · rw [hres, List.getD_eq_getElem?_getD, List.getElem?_set_self htlt]
      rfl
    · unfold UniquenessChecker.targetIndex
      by_cases hc : (st.1.getD j default).propagated_score ≤
          (st.1.getD i default).propagated_score
      · rw [if_pos hc]; exact hc
      · rw [if_neg hc]
    · unfold UniquenessChecker.targetIndex
      by_cases hc : (st.1.getD j default).propagated_score ≤
          (st.1.getD i default).propagated_score
      · rw [if_pos hc]
      · rw [if_neg hc]
        exact le_of_lt (lt_of_not_le hc)
    · intro k hk
      rw [hres, List.getD_eq_getElem?_getD, List.getD_eq_getElem?_getD,
        List.getElem?_set_ne (fun he => hk he.symm)]
      exact (List.getD_eq_getElem?_getD _ _ _).symm
  · intro threshold sims siblings
    unfold UniquenessChecker.penalizeGroup
    rw [penStep_count]
    simp
  · intro n i j
    unfold UniquenessChecker.pairIndices
    simp only [List.mem_flatMap, List.mem_map, List.mem_range, List.mem_range'_1,
      Prod.mk.injEq]
    constructor
    · rintro ⟨i1, hi1, j1, hj1, rfl, rfl⟩
      omega
    · rintro ⟨hij, hjn⟩
      exact ⟨i, by omega, j, ⟨by omega, by omega⟩, rfl, rfl⟩

/-- Witness for C7: siblings with propagated scores 0.75 and 0.5 at
similarity 0.9 above the default threshold 0.75: the later, lower-scoring
sibling (index 1) is penalised by the stated formula, position 0 is
untouched, and the run records exactly the one detected pair. -/
theorem check_and_penalize_pair_semantics_witness :
    (((UniquenessChecker.penStep (3/4) testSims ([sibX, sibY], []) 0 1).1.getD
        (UniquenessChecker.targetIndex [sibX, sibY] 0 1) default).uniqueness_score =
      max ((([sibX, sibY].getD (UniquenessChecker.targetIndex [sibX, sibY] 0 1)
            default).uniqueness_score *
          (1 - (testSims 0 1 - 3/4) / (1 - 3/4) * (1 - UNIQUENESS_PENALTY_FACTOR))))
        (1/100) ∧
      (([sibX, sibY].getD (UniquenessChecker.targetIndex [sibX, sibY] 0 1)
          default).propagated_score ≤ ([sibX, sibY].getD 0 default).propagated_score) ∧
      (([sibX, sibY].getD (UniquenessChecker.targetIndex [sibX, sibY] 0 1)
          default).propagated_score ≤ ([sibX, sibY].getD 1 default).propagated_score) ∧
      (∀ k, k ≠ UniquenessChecker.targetIndex [sibX, sibY] 0 1 →
        (UniquenessChecker.penStep (3/4) testSims ([sibX, sibY], []) 0 1).1.getD k default
          = [sibX, sibY].getD k default) ∧
      (UniquenessChecker.penStep (3/4) testSims ([sibX, sibY], []) 0 1).2.length =
        ([] : List UniquenessChecker.PenaltyRecord).length + 1) ∧
    (UniquenessChecker.penalizeGroup (3/4) testSims [sibX, sibY]).2.length =
      ((UniquenessChecker.pairIndices ([sibX, sibY] : List BeliefNode).length).filter
        (fun p => decide ((3:ℚ)/4 < testSims p.1 p.2))).length :=
  ⟨check_and_penalize_pair_semantics.1 (3/4) testSims ([sibX, sibY], []) 0 1
      (by decide) (by decide) (by decide) (by with_unfolding_all decide),
   check_and_penalize_pair_semantics.2.1 (3/4) testSims [sibX, sibY]⟩

/-- Witness for C10: the zero vector (0, 0) is truthy as a Python list but
has zero norm, so the semantic score against the unit vector is 0; and the
unit vector's norm-square 1 yields a nonzero square root product. -/
theorem semantic_score_zero_norm_guard_witness :
    SemanticSimilarityScorer.score { engine := none } embNodeZ embNodeY = 0 ∧
    ratSqrt (normSq [1, 0]) * ratSqrt (normSq [1, 0]) ≠ 0 :=
  ⟨semantic_score_zero_norm_guard.1 { engine := none } embNodeZ embNodeY [0, 0] [1, 0]
      rfl rfl (by decide) (by decide) (Or.inl (by with_unfolding_all decide)),
   semantic_score_zero_norm_guard.2 [1, 0] [1, 0] (by with_unfolding_all decide)
     (by with_unfolding_all decide)⟩

end ISE
